import Mathlib

/-!
# Verification of janet-msgpack (src/msgpack.c)

A shallow embedding of the MessagePack encoder and decoder of
Techcable/janet-msgpack.  The encoder (`encode_msgpack_int`,
`encode_msgpack_string`, `encode_msgpack_collection_length`, `encodeVal`) is
translated line by line from the hand-written encoder in src/msgpack.c; the
decoder (`readTag`, `decode_msgpack_string`, `decodeVal`) is translated from
`decode_msgpack` in src/msgpack.c, with the byte-cursor primitives of the
external mpack reader library (not part of this repository's src/) modelled
from their documented behaviour.

Conventions of the embedding:
* bytes are `Nat`s below 256 in a `List Nat`; C casts `(uint8_t) x` and
  right shifts are written `x % 256` and `x / 2 ^ k`;
* machine integers are `Int`/`Nat` with explicit `% 2 ^ 64` where the C
  reinterprets between `int64_t` and `uint64_t`;
* Janet panics become `Except.error`;
* the recursion-depth counter of the C code (checked against
  `JANET_RECURSION_GUARD` at the entry of every recursive call) is carried
  as the remaining budget `JANET_RECURSION_GUARD + 1 - depth`, so that the
  C check `depth > JANET_RECURSION_GUARD` is the budget hitting `0`.

The C file declares `encode_msgpack` as returning `void` while its cases
use `return NULL` and its caller stores the result in a `const char *`;
the earlier revision of the same function in this repository returned
`const char *` with `return NULL;` directly before the `unknown_type:`
label.  The embedding follows that evident control flow: each handled case
succeeds, unhandled types reach the `unknown_type` failure.
-/

namespace JanetMsgpack

/-- Constant `JANET_RECURSION_GUARD` from the Janet runtime headers (external to this
repository); its default value is 1024. -/
def JANET_RECURSION_GUARD : Nat := 1024

/-- Constant `INT32_MAX`, used by `check_length_cast` and the integer decode paths. -/
def INT32_MAX_N : Nat := 2 ^ 31 - 1

/-- Model of `enum msgpack_string_type` (src/msgpack.c:32): the wire category used
for string-like payloads. -/
inductive MsgpackStringType where
  | string
  | bytes
  deriving DecidableEq, Repr

/-- Model of `enum janet_type_mutability` (src/msgpack.c:46). -/
inductive Mutability where
  | mutable
  | immutable
  deriving DecidableEq, Repr

/-- The legal values of `struct janet_msgpack_decoder.string_type`: the
Janet type a wire `str` payload decodes to. -/
inductive JStrType where
  | string
  | buffer
  | symbol
  | keyword
  deriving DecidableEq, Repr

/-- The Janet host values this codec consumes and produces.

* `jnum_int i` is a Janet number for which `janet_checkint` holds (an
  integral double within the signed 32-bit range); `jnum_double bits` is a
  Janet number for which it does not, carried as its IEEE-754 64-bit bit
  pattern (`bits < 2 ^ 64`).
* `js64` / `ju64` are the boxed `int/s64` and `int/u64` abstract types
  (`JANET_INT_TYPES`).
* `jstruct` / `jtable` carry the slots of `janet_dictionary_view` in
  storage order; a slot whose key is `jnil` is an empty slot of the backing
  storage (Janet's invariant: the view's `count` is the number of slots
  whose key is not nil). -/
inductive JVal where
  | jnil
  | jbool (b : Bool)
  | jnum_int (i : Int)
  | jnum_double (bits : Nat)
  | jstring (s : List Nat)
  | jbuffer (s : List Nat)
  | jsymbol (s : List Nat)
  | jkeyword (s : List Nat)
  | js64 (i : Int)
  | ju64 (n : Nat)
  | jtuple (xs : List JVal)
  | jarray (xs : List JVal)
  | jstruct (slots : List (JVal × JVal))
  | jtable (slots : List (JVal × JVal))
  deriving Repr

/-- Model of `janet_checktype(v, JANET_NIL)`. -/
def JVal.isNil : JVal → Bool
  | .jnil => true
  | _ => false

mutual
/-- Structural equality of Janet values (modelling `janet_equals` on the
fragment of Janet values the codec handles). -/
def JVal.beq : JVal → JVal → Bool
  | .jnil, .jnil => true
  | .jbool a, .jbool b => a == b
  | .jnum_int a, .jnum_int b => a == b
  | .jnum_double a, .jnum_double b => a == b
  | .jstring a, .jstring b => a == b
  | .jbuffer a, .jbuffer b => a == b
  | .jsymbol a, .jsymbol b => a == b
  | .jkeyword a, .jkeyword b => a == b
  | .js64 a, .js64 b => a == b
  | .ju64 a, .ju64 b => a == b
  | .jtuple a, .jtuple b => beqList a b
  | .jarray a, .jarray b => beqList a b
  | .jstruct a, .jstruct b => beqKVs a b
  | .jtable a, .jtable b => beqKVs a b
  | _, _ => false

def beqList : List JVal → List JVal → Bool
  | [], [] => true
  | x :: xs, y :: ys => JVal.beq x y && beqList xs ys
  | _, _ => false

def beqKVs : List (JVal × JVal) → List (JVal × JVal) → Bool
  | [], [] => true
  | (k, v) :: xs, (l, w) :: ys => JVal.beq k l && JVal.beq v w && beqKVs xs ys
  | _, _ => false
end

/-- Model of `struct msgpack_encoder` minus the output buffer (src/msgpack.c:105):
the target wire categories for Janet strings and buffers. -/
structure EncCfg where
  string_type : MsgpackStringType
  buffer_type : MsgpackStringType
  deriving DecidableEq, Repr

/-- The defaults set by `janet_msgpack_encode` (src/msgpack.c:353-357). -/
def defaultEncCfg : EncCfg := ⟨.string, .bytes⟩

/-- Model of `struct janet_msgpack_decoder` minus the reader (src/msgpack.c:414). -/
structure DecCfg where
  string_type : JStrType
  bin_type : Mutability
  array_type : Mutability
  map_type : Mutability
  deriving DecidableEq, Repr

/-- The defaults set by `janet_msgpack_decode` (src/msgpack.c:611-617). -/
def defaultDecCfg : DecCfg := ⟨.string, .mutable, .mutable, .mutable⟩

/-- Cast `(uint64_t) i` for a signed 64-bit `i`. -/
def uint64_of_int (i : Int) : Nat := (i % 2 ^ 64).toNat

/-- Cast `(int64_t) u` for an unsigned 64-bit `u`: reinterpret as two's
complement (src/msgpack.c:203 casts `janet_unwrap_u64(value)` this way). -/
def int64_of_uint64 (n : Nat) : Int :=
  if n < 2 ^ 63 then (n : Int) else (n : Int) - 2 ^ 64

/-- Model of `encode_int_without_tag` (src/msgpack.c:254-283): push `needed_bytes`
big-endian bytes of `target`; each `(uint8_t)` cast truncates to the low
byte.  `needed_bytes` is always 1, 2, 4 or 8 (`assert(false)` otherwise). -/
def encode_int_without_tag (target : Nat) (needed_bytes : Nat) : List Nat :=
  match needed_bytes with
  | 1 => [target % 256]
  | 2 => [target / 2 ^ 8 % 256, target % 256]
  | 4 => [target / 2 ^ 24 % 256, target / 2 ^ 16 % 256, target / 2 ^ 8 % 256, target % 256]
  | 8 => [target / 2 ^ 56 % 256, target / 2 ^ 48 % 256, target / 2 ^ 40 % 256,
          target / 2 ^ 32 % 256, target / 2 ^ 24 % 256, target / 2 ^ 16 % 256,
          target / 2 ^ 8 % 256, target % 256]
  | _ => []

/-- Model of `encode_int_tagged` (src/msgpack.c:113-133): a tag byte derived from the
width, then the big-endian payload. -/
def encode_int_tagged (target : Nat) (needed_bytes : Nat) (tag_start : Nat) : List Nat :=
  (match needed_bytes with
   | 1 => tag_start
   | 2 => tag_start + 1
   | 4 => tag_start + 2
   | 8 => tag_start + 3
   | _ => tag_start) :: encode_int_without_tag target needed_bytes

/-- Model of `encode_msgpack_int` (src/msgpack.c:303-348).  The `actually_unsigned`
flag is set when the caller's value is an unsigned 64-bit integer
reinterpreted as `int64_t`.  Note that the width selection of the unsigned
branch compares `signed_value` (signed comparisons, src/msgpack.c:314-318),
not the reinterpreted `value`. -/
def encode_msgpack_int (signed_value : Int) (actually_unsigned : Bool) : List Nat :=
  if 0 ≤ signed_value ∨ actually_unsigned = true then
    let value : Nat := uint64_of_int signed_value
    if value ≤ 127 then [value]
    else
      let needed_bytes : Nat :=
        if signed_value ≤ 0xFF then 1
        else if signed_value ≤ 0xFFFF then 2
        else if signed_value ≤ 0xFFFFFFFF then 4
        else 8
      encode_int_tagged value needed_bytes 0xCC
  else
    if -32 ≤ signed_value then
      -- (uint8_t) 0xE0 | (signed_value + 32), with signed_value + 32 ∈ [0, 31]
      [0xE0 + (signed_value + 32).toNat]
    else if -128 ≤ signed_value then
      -- (uint8_t) ((int8_t) signed_value)
      encode_int_tagged (signed_value + 2 ^ 8).toNat 1 0xD0
    else if -32768 ≤ signed_value then
      -- (uint16_t) ((int16_t) signed_value)
      encode_int_tagged (signed_value + 2 ^ 16).toNat 2 0xD0
    else if -(2 ^ 31 : Int) ≤ signed_value then
      -- (uint32_t) ((int32_t) signed_value)
      encode_int_tagged (signed_value + 2 ^ 32).toNat 4 0xD0
    else
      -- (uint64_t) ((int64_t) signed_value)
      encode_int_tagged (uint64_of_int signed_value) 8 0xD0

/-- Model of `encode_msgpack_string` (src/msgpack.c:284-302); `len` is the byte
length of the payload (a Janet length, hence < 2^31). -/
def encode_msgpack_string (bytes : List Nat) (desired_type : MsgpackStringType) : List Nat :=
  let len := bytes.length
  if len < 32 ∧ desired_type = .string then
    (0xA0 + len) :: bytes  -- 0xA0 | len with len < 32
  else
    let needed_len_bytes : Nat :=
      if len ≤ 0xFF then 1
      else if len ≤ 0xFFFF then 2
      else 4
    encode_int_tagged len needed_len_bytes
      (if desired_type = .string then 0xD9 else 0xC4) ++ bytes

/-- Model of `encode_msgpack_collection_length` (src/msgpack.c:135-148); `len` is a
non-negative `int32_t`. -/
def encode_msgpack_collection_length (len : Nat) (inline_bitmask : Nat) (tag_start : Nat) :
    List Nat :=
  if len ≤ 15 then [inline_bitmask + len]  -- inline_bitmask | len with len ≤ 15
  else if len ≤ 0xFFFF then tag_start :: encode_int_without_tag len 2
  else (tag_start + 1) :: encode_int_without_tag len 4

/-- The slots of a dictionary view whose key is not the nil sentinel; by
Janet's invariant their number is the `count` of `janet_dictionary_view`. -/
def liveSlots (slots : List (JVal × JVal)) : List (JVal × JVal) :=
  slots.filter fun kv => !kv.1.isNil

/-- The element loop of the array/tuple case of `encode_msgpack`
(src/msgpack.c:221-223), abstracted over the recursive call. -/
def encodeElems (child : JVal → Except String (List Nat)) :
    List JVal → Except String (List Nat)
  | [] => .ok []
  | x :: xs =>
    match child x with
    | .error e => .error e
    | .ok ebytes =>
      match encodeElems child xs with
      | .error e => .error e
      | .ok rest => .ok (ebytes ++ rest)

/-- The slot loop of the table/struct case of `encode_msgpack`
(src/msgpack.c:237-241), abstracted over the recursive call: every slot
whose key is nil is skipped, each remaining slot contributes its encoded
key followed by its encoded value. -/
def encodeKVs (child : JVal → Except String (List Nat)) :
    List (JVal × JVal) → Except String (List Nat)
  | [] => .ok []
  | (k, v) :: rest =>
    match k with
    | .jnil => encodeKVs child rest
    | _ =>
      match child k with
      | .error e => .error e
      | .ok ke =>
        match child v with
        | .error e => .error e
        | .ok ve =>
          match encodeKVs child rest with
          | .error e => .error e
          | .ok re => .ok (ke ++ ve ++ re)

/-- Model of `encode_msgpack` (src/msgpack.c:149-249).  The first argument is the
remaining recursion budget `JANET_RECURSION_GUARD + 1 - depth`; budget `0`
is the C check `depth > JANET_RECURSION_GUARD`.  Returned bytes are the
bytes this call pushes onto the output buffer. -/
def encodeVal : Nat → EncCfg → JVal → Except String (List Nat)
  | 0, _, _ => .error "recursed too deeply"
  | b + 1, cfg, v =>
    match v with
    | .jnil => .ok [0xC0]
    | .jbool x => .ok (if x then [0xC3] else [0xC2])
    | .jnum_int i => .ok (encode_msgpack_int i false)
    | .jnum_double bits =>
      -- 0xCB, then janet_buffer_push_u64(ensure_bigendian(bits)):
      -- the 8 bytes of the IEEE-754 bit pattern, most significant first
      .ok (0xCB :: encode_int_without_tag bits 8)
    | .jsymbol s => .ok (encode_msgpack_string s .string)
    | .jkeyword s => .ok (encode_msgpack_string s .string)
    | .jstring s => .ok (encode_msgpack_string s cfg.string_type)
    | .jbuffer s => .ok (encode_msgpack_string s cfg.buffer_type)
    | .js64 i => .ok (encode_msgpack_int i false)
    | .ju64 n => .ok (encode_msgpack_int (int64_of_uint64 n) true)
    | .jtuple xs =>
      match encodeElems (encodeVal b cfg) xs with
      | .error e => .error e
      | .ok body => .ok (encode_msgpack_collection_length xs.length 0x90 0xDC ++ body)
    | .jarray xs =>
      match encodeElems (encodeVal b cfg) xs with
      | .error e => .error e
      | .ok body => .ok (encode_msgpack_collection_length xs.length 0x90 0xDC ++ body)
    | .jstruct slots =>
      match encodeKVs (encodeVal b cfg) slots with
      | .error e => .error e
      | .ok body =>
        .ok (encode_msgpack_collection_length (liveSlots slots).length 0x80 0xDE ++ body)
    | .jtable slots =>
      match encodeKVs (encodeVal b cfg) slots with
      | .error e => .error e
      | .ok body =>
        .ok (encode_msgpack_collection_length (liveSlots slots).length 0x80 0xDE ++ body)

/-- A full encode call: `encode_msgpack(&encoder, value, 0)`
(src/msgpack.c:409). -/
def msgpack_encode (cfg : EncCfg) (v : JVal) : Except String (List Nat) :=
  encodeVal (JANET_RECURSION_GUARD + 1) cfg v

/-! ## The decoder -/

def errTooDeep : String := "mspgack decoding recursed too deeply"

def errEndOfData : String := "Error decoding msgpack: unexpected end of data"

def errInvalidTag : String := "Error decoding msgpack: invalid tag byte"

def errInvalidUtf8 : String := "Error decoding msgpack: string is not valid UTF-8"

def errExtUnsupported : String := "Error decoding msgpack: extension types are not supported"

def errLenOverflow : String := "Length overflowed int32"

/-- Take exactly `n` bytes from the input (the in-place reads of the mpack
cursor), returning payload and remaining input. -/
def takeN (n : Nat) (xs : List Nat) : Option (List Nat × List Nat) :=
  if n ≤ xs.length then some (xs.take n, xs.drop n) else none

/-- Read `w` big-endian bytes as an unsigned integer. -/
def takeBE : Nat → List Nat → Option (Nat × List Nat)
  | 0, input => some (0, input)
  | _ + 1, [] => none
  | w + 1, b :: rest =>
    match takeBE w rest with
    | none => none
    | some (v, r) => some (b * 2 ^ (8 * w) + v, r)

/-- Two's-complement reading of a `bits`-wide unsigned value. -/
def signExtend (bits : Nat) (v : Nat) : Int :=
  if v < 2 ^ (bits - 1) then (v : Int) else (v : Int) - 2 ^ bits

/-- Exact widening of an IEEE-754 single-precision bit pattern to the
double-precision bit pattern of the same real value (the C's implicit
`float` → `double` conversion in the `mpack_type_float` case,
src/msgpack.c:515-518). -/
def f32_to_f64_bits (b : Nat) : Nat :=
  let s := b / 2 ^ 31 % 2
  let e := b / 2 ^ 23 % 256
  let m := b % 2 ^ 23
  if e = 255 then s * 2 ^ 63 + 2047 * 2 ^ 52 + m * 2 ^ 29
  else if e = 0 then
    if m = 0 then s * 2 ^ 63
    else
      let p := Nat.log2 m
      s * 2 ^ 63 + (p + 874) * 2 ^ 52 + (m - 2 ^ p) * 2 ^ (52 - p)
  else s * 2 ^ 63 + (e + 896) * 2 ^ 52 + m * 2 ^ 29

/-- A wire tag as produced by `mpack_read_tag`: the wire category plus its
inline value or length.

Modelled from the spec: the mpack reader library is an external
collaborator (vendored outside src/); its tag reader follows the published
MessagePack tag table, which §6 of the spec makes normative. -/
inductive MTag where
  | mnil
  | mbool (b : Bool)
  | mint (i : Int)
  | muint (n : Nat)
  | mfloat32 (bits : Nat)
  | mfloat64 (bits : Nat)
  | mstr (len : Nat)
  | mbin (len : Nat)
  | marr (len : Nat)
  | mmap (len : Nat)
  deriving DecidableEq, Repr

/-- Read a `w`-byte big-endian field and build a tag from it. -/
def readLenTag (w : Nat) (mk : Nat → MTag) (input : List Nat) :
    Except String (MTag × List Nat) :=
  match takeBE w input with
  | none => .error errEndOfData
  | some (n, rest) => .ok (mk n, rest)

/-- Model of `mpack_read_tag`, following the MessagePack tag table.

Modelled from the spec: the mpack reader is external to src/; positive
fixints and `0xCC`-`0xCF` yield the unsigned category, negative fixints
and `0xD0`-`0xD3` the signed one (sign-extended), extension tags are
unsupported by this build of the reader. -/
def readTag : List Nat → Except String (MTag × List Nat)
  | [] => .error errEndOfData
  | b :: rest =>
    if b ≤ 0x7F then .ok (.muint b, rest)
    else if b ≤ 0x8F then .ok (.mmap (b - 0x80), rest)
    else if b ≤ 0x9F then .ok (.marr (b - 0x90), rest)
    else if b ≤ 0xBF then .ok (.mstr (b - 0xA0), rest)
    else if b = 0xC0 then .ok (.mnil, rest)
    else if b = 0xC1 then .error errInvalidTag
    else if b = 0xC2 then .ok (.mbool false, rest)
    else if b = 0xC3 then .ok (.mbool true, rest)
    else if b = 0xC4 then readLenTag 1 .mbin rest
    else if b = 0xC5 then readLenTag 2 .mbin rest
    else if b = 0xC6 then readLenTag 4 .mbin rest
    else if b ≤ 0xC9 then .error errExtUnsupported
    else if b = 0xCA then readLenTag 4 .mfloat32 rest
    else if b = 0xCB then readLenTag 8 .mfloat64 rest
    else if b = 0xCC then readLenTag 1 .muint rest
    else if b = 0xCD then readLenTag 2 .muint rest
    else if b = 0xCE then readLenTag 4 .muint rest
    else if b = 0xCF then readLenTag 8 .muint rest
    else if b = 0xD0 then readLenTag 1 (fun v => .mint (signExtend 8 v)) rest
    else if b = 0xD1 then readLenTag 2 (fun v => .mint (signExtend 16 v)) rest
    else if b = 0xD2 then readLenTag 4 (fun v => .mint (signExtend 32 v)) rest
    else if b = 0xD3 then readLenTag 8 (fun v => .mint (signExtend 64 v)) rest
    else if b ≤ 0xD8 then .error errExtUnsupported
    else if b = 0xD9 then readLenTag 1 .mstr rest
    else if b = 0xDA then readLenTag 2 .mstr rest
    else if b = 0xDB then readLenTag 4 .mstr rest
    else if b = 0xDC then readLenTag 2 .marr rest
    else if b = 0xDD then readLenTag 4 .marr rest
    else if b = 0xDE then readLenTag 2 .mmap rest
    else if b = 0xDF then readLenTag 4 .mmap rest
    else .ok (.mint ((b : Int) - 256), rest)  -- negative fixint 0xE0..0xFF

/-- A UTF-8 continuation byte. -/
def isCont (b : Nat) : Bool := 0x80 ≤ b ∧ b ≤ 0xBF

/-- UTF-8 validity, as checked by the reader's `mpack_read_utf8_inplace`.

Modelled from the spec: the mpack reader is external to src/; its check
rejects overlong forms, surrogates and code points above U+10FFFF. -/
def utf8Valid : List Nat → Bool
  | [] => true
  | b :: rest =>
    if b ≤ 0x7F then utf8Valid rest
    else if 0xC2 ≤ b ∧ b ≤ 0xDF then
      match rest with
      | c1 :: r => isCont c1 && utf8Valid r
      | _ => false
    else if 0xE0 ≤ b ∧ b ≤ 0xEF then
      match rest with
      | c1 :: c2 :: r =>
        isCont c1 && isCont c2 &&
          (decide (b ≠ 0xE0) || decide (0xA0 ≤ c1)) &&
          (decide (b ≠ 0xED) || decide (c1 ≤ 0x9F)) &&
          utf8Valid r
      | _ => false
    else if 0xF0 ≤ b ∧ b ≤ 0xF4 then
      match rest with
      | c1 :: c2 :: c3 :: r =>
        isCont c1 && isCont c2 && isCont c3 &&
          (decide (b ≠ 0xF0) || decide (0x90 ≤ c1)) &&
          (decide (b ≠ 0xF4) || decide (c1 ≤ 0x8F)) &&
          utf8Valid r
      | _ => false
    else false

/-- Model of `janet_buffer_push_cstring` applied to the in-place payload pointer
(src/msgpack.c:471): copies bytes up to, and excluding, the first zero
byte.  Because the pointer aliases the reader's input, the copy runs
through the payload and on into the remaining input, so the caller passes
`payload ++ rest`. -/
def cstring_read (bytes : List Nat) : List Nat :=
  bytes.takeWhile fun b => b ≠ 0

/-- Model of `janet_table_put`: a nil key is ignored, a nil value removes the key,
otherwise the binding is replaced in place or appended. -/
def tablePut (t : List (JVal × JVal)) (k v : JVal) : List (JVal × JVal) :=
  if k.isNil then t
  else if v.isNil then t.filter fun kv => !JVal.beq kv.1 k
  else if t.any fun kv => JVal.beq kv.1 k then
    t.map fun kv => if JVal.beq kv.1 k then (kv.1, v) else kv
  else t ++ [(k, v)]

/-- Model of `janet_struct_put`: nil keys and nil values are ignored (the slot
order of the model is insertion order). -/
def structPut (t : List (JVal × JVal)) (k v : JVal) : List (JVal × JVal) :=
  if k.isNil || v.isNil then t else t ++ [(k, v)]

/-- Model of `decode_msgpack_string` (src/msgpack.c:428-481): resolve the decoded
Janet type from the wire category and the decoder configuration, read the
payload (UTF-8-checked for string/symbol/keyword targets, raw for buffer
targets), and build the value.  A buffer target copies from the in-place
pointer with `janet_buffer_push_cstring`, so its contents stop at the
first zero byte. -/
def decode_msgpack_string (cfg : DecCfg) (len : Nat) (string_type : MsgpackStringType)
    (input : List Nat) : Except String (JVal × List Nat) :=
  if len > INT32_MAX_N then .error errLenOverflow
  else
    let decoded_type : JStrType :=
      match string_type with
      | .string => cfg.string_type
      | .bytes => if cfg.bin_type = .mutable then .buffer else .string
    match takeN len input with
    | none => .error errEndOfData
    | some (data, rest) =>
      match decoded_type with
      | .buffer => .ok (.jbuffer (cstring_read (data ++ rest)), rest)
      | .string =>
        if utf8Valid data then .ok (.jstring data, rest) else .error errInvalidUtf8
      | .symbol =>
        if utf8Valid data then .ok (.jsymbol data, rest) else .error errInvalidUtf8
      | .keyword =>
        if utf8Valid data then .ok (.jkeyword data, rest) else .error errInvalidUtf8

/-- The element loop of the array case of `decode_msgpack`
(src/msgpack.c:540-547), abstracted over the recursive call. -/
def decodeElems (child : List Nat → Except String (JVal × List Nat)) :
    Nat → List Nat → Except String (List JVal × List Nat)
  | 0, input => .ok ([], input)
  | c + 1, input =>
    match child input with
    | .error e => .error e
    | .ok (v, r) =>
      match decodeElems child c r with
      | .error e => .error e
      | .ok (vs, r2) => .ok (v :: vs, r2)

/-- The entry loop of the map case of `decode_msgpack`
(src/msgpack.c:565-578), abstracted over the recursive calls: each key is
decoded by `dkey` (the caller passes the keyword-forced configuration),
each value by `dval` (the caller's configuration). -/
def decodeEntries (dkey dval : List Nat → Except String (JVal × List Nat)) :
    Nat → List Nat → Except String (List (JVal × JVal) × List Nat)
  | 0, input => .ok ([], input)
  | c + 1, input =>
    match dkey input with
    | .error e => .error e
    | .ok (k, r1) =>
      match dval r1 with
      | .error e => .error e
      | .ok (v, r2) =>
        match decodeEntries dkey dval c r2 with
        | .error e => .error e
        | .ok (ps, r3) => .ok ((k, v) :: ps, r3)

/-- Model of `decode_msgpack` (src/msgpack.c:482-590).  The first argument is the
remaining recursion budget `JANET_RECURSION_GUARD + 1 - depth`; budget `0`
is the C check `depth > JANET_RECURSION_GUARD`.  Note that the map case
chooses between table and struct by testing `decoder->array_type`
(src/msgpack.c:560), not `map_type`, exactly as the C does. -/
def decodeVal : Nat → DecCfg → List Nat → Except String (JVal × List Nat)
  | 0, _, _ => .error errTooDeep
  | b + 1, cfg, input =>
    match readTag input with
    | .error e => .error e
    | .ok (tag, r) =>
      match tag with
      | .mnil => .ok (.jnil, r)
      | .mbool x => .ok (.jbool x, r)
      | .mint i =>
        if -(2 ^ 31 : Int) ≤ i ∧ i ≤ 2 ^ 31 - 1 then .ok (.jnum_int i, r)
        else .ok (.js64 i, r)
      | .muint n =>
        if n ≤ 2 ^ 31 - 1 then .ok (.jnum_int (n : Int), r)
        else .ok (.ju64 n, r)
      | .mfloat32 bits => .ok (.jnum_double (f32_to_f64_bits bits), r)
      | .mfloat64 bits => .ok (.jnum_double bits, r)
      | .mstr len => decode_msgpack_string cfg len .string r
      | .mbin len => decode_msgpack_string cfg len .bytes r
      | .marr len =>
        if len > INT32_MAX_N then .error errLenOverflow
        else
          match decodeElems (decodeVal b cfg) len r with
          | .error e => .error e
          | .ok (vs, r2) =>
            if cfg.array_type = .mutable then .ok (.jarray vs, r2)
            else .ok (.jtuple vs, r2)
      | .mmap len =>
        if len > INT32_MAX_N then .error errLenOverflow
        else
          match
            decodeEntries (decodeVal b { cfg with string_type := .keyword })
              (decodeVal b cfg) len r with
          | .error e => .error e
          | .ok (ps, r2) =>
            if cfg.array_type = .mutable then
              .ok (.jtable (ps.foldl (fun t kv => tablePut t kv.1 kv.2) []), r2)
            else
              .ok (.jstruct (ps.foldl (fun t kv => structPut t kv.1 kv.2) []), r2)

/-- A full decode call: `decode_msgpack(&decoder, 0)` on a fresh reader
over `bytes` (src/msgpack.c:700); trailing unconsumed bytes are ignored. -/
def msgpack_decode (cfg : DecCfg) (bytes : List Nat) : Except String JVal :=
  match decodeVal (JANET_RECURSION_GUARD + 1) cfg bytes with
  | .error e => .error e
  | .ok (v, _) => .ok v

/-- Model of `janet_msgpack_decode` (src/msgpack.c:603-702), the module's `decode`
entry point.  Its first statement is `janet_arity(argc, 1, 1)`, so any
call carrying a second (configuration) argument aborts before the
configuration-parsing block at src/msgpack.c:619-699 can run; that block
is unreachable. -/
def janet_msgpack_decode (bytes : List Nat) (config : Option JVal) : Except String JVal :=
  match config with
  | some _ => .error "arity mismatch, expected 1 argument"
  | none => msgpack_decode defaultDecCfg bytes

/-! ## Spec-side definitions and the round-trip class -/

/-- Modelled from the spec (§4.2), for comparison with `encode_msgpack_int`:
non-negative values ≤ 127 as a positive fixint; other non-negative values
with the narrowest of the unsigned tags `0xCC/0xCD/0xCE/0xCF`; negative
values ≥ −32 as a negative fixint `0xE0 | (value + 32)`; other negative
values with the narrowest signed two's-complement width among tags
`0xD0/0xD1/0xD2/0xD3`; payloads big-endian. -/
def spec_minimal_int_encoding (v : Int) : List Nat :=
  if 0 ≤ v then
    if v ≤ 127 then [v.toNat]
    else if v ≤ 0xFF then 0xCC :: encode_int_without_tag v.toNat 1
    else if v ≤ 0xFFFF then 0xCD :: encode_int_without_tag v.toNat 2
    else if v ≤ 0xFFFFFFFF then 0xCE :: encode_int_without_tag v.toNat 4
    else 0xCF :: encode_int_without_tag v.toNat 8
  else
    if -32 ≤ v then [0xE0 + (v + 32).toNat]
    else if -(2 ^ 7 : Int) ≤ v then 0xD0 :: encode_int_without_tag (v + 2 ^ 8).toNat 1
    else if -(2 ^ 15 : Int) ≤ v then 0xD1 :: encode_int_without_tag (v + 2 ^ 16).toNat 2
    else if -(2 ^ 31 : Int) ≤ v then 0xD2 :: encode_int_without_tag (v + 2 ^ 32).toNat 4
    else 0xD3 :: encode_int_without_tag (v + 2 ^ 64).toNat 8

/-- The host value a decoded wire `str` payload becomes for each
configured target type (for buffer targets see `decode_msgpack_string`,
whose C-string copy is not captured here). -/
def strResult : JStrType → List Nat → JVal
  | .string, s => .jstring s
  | .keyword, s => .jkeyword s
  | .symbol, s => .jsymbol s
  | .buffer, s => .jbuffer s

/-- One encoded key chunk followed by one encoded value chunk per slot,
with no slot skipped: the shape `encodeKVs` reduces to on nil-free slot
lists. -/
def encodedPairChunks (child : JVal → Except String (List Nat)) :
    List (JVal × JVal) → Except String (List Nat)
  | [] => .ok []
  | (k, v) :: rest =>
    match child k with
    | .error e => .error e
    | .ok ke =>
      match child v with
      | .error e => .error e
      | .ok ve =>
        match encodedPairChunks child rest with
        | .error e => .error e
        | .ok re => .ok (ke ++ ve ++ re)

/-- A table key that survives the default-configuration round trip: a
keyword with valid UTF-8 content (map keys decode as keywords). -/
def GoodKey : JVal → Bool
  | .jkeyword s => utf8Valid s && decide (s.length < 2 ^ 31)
  | _ => false

/-- Pairwise distinctness (under Janet equality) of the keys of a slot
list. -/
def nodupKeys : List (JVal × JVal) → Bool
  | [] => true
  | (k, _) :: rest => (rest.all fun kv => !JVal.beq k kv.1) && nodupKeys rest

mutual
/-- The class of host values for which the default-configuration round
trip `decode (encode v) = v` holds: nil, booleans, `janet_checkint`
numbers, other doubles (bit-pattern identity), valid-UTF-8 strings,
`int/s64` values below the int32 range, `int/u64` values above the int32
range and below `2 ^ 63`, arrays of such values, and tables whose slots
have pairwise-distinct valid-UTF-8 keyword keys and non-nil values of the
class. -/
def Good : JVal → Bool
  | .jnil => true
  | .jbool _ => true
  | .jnum_int i => decide (-(2 ^ 31 : Int) ≤ i) && decide (i < 2 ^ 31)
  | .jnum_double bits => decide (bits < 2 ^ 64)
  | .jstring s => utf8Valid s && decide (s.length < 2 ^ 31)
  | .js64 i => decide (-(2 ^ 63 : Int) ≤ i) && decide (i < -(2 ^ 31 : Int))
  | .ju64 n => decide (2 ^ 31 ≤ n) && decide (n < 2 ^ 63)
  | .jarray xs => decide (xs.length < 2 ^ 31) && GoodList xs
  | .jtable slots => decide (slots.length < 2 ^ 31) && GoodSlots slots && nodupKeys slots
  | _ => false

def GoodList : List JVal → Bool
  | [] => true
  | x :: xs => Good x && GoodList xs

def GoodSlots : List (JVal × JVal) → Bool
  | [] => true
  | (k, v) :: rest => GoodKey k && Good v && !v.isNil && GoodSlots rest
end

/-- The keyword-forced decoder configuration used for map keys
(src/msgpack.c:566-568) starting from the defaults. -/
def kwDecCfg : DecCfg := { defaultDecCfg with string_type := .keyword }

/-! ## Byte-level helper lemmas -/

theorem takeN_append (s r : List Nat) : takeN s.length (s ++ r) = some (s, r) := by
  simp [takeN]

theorem takeBE_one (v : Nat) (hv : v < 2 ^ 8) (r : List Nat) :
    takeBE 1 (encode_int_without_tag v 1 ++ r) = some (v, r) := by
  simp [encode_int_without_tag, takeBE]
  omega

theorem takeBE_two (v : Nat) (hv : v < 2 ^ 16) (r : List Nat) :
    takeBE 2 (encode_int_without_tag v 2 ++ r) = some (v, r) := by
  simp [encode_int_without_tag, takeBE]
  omega

theorem takeBE_four (v : Nat) (hv : v < 2 ^ 32) (r : List Nat) :
    takeBE 4 (encode_int_without_tag v 4 ++ r) = some (v, r) := by
  simp [encode_int_without_tag, takeBE]
  omega

theorem takeBE_eight (v : Nat) (hv : v < 2 ^ 64) (r : List Nat) :
    takeBE 8 (encode_int_without_tag v 8 ++ r) = some (v, r) := by
  simp [encode_int_without_tag, takeBE]
  omega

/-! ## Tag-reading lemmas -/

theorem readTag_posfixint (b : Nat) (hb : b ≤ 0x7F) (r : List Nat) :
    readTag (b :: r) = .ok (.muint b, r) := by
  simp [readTag, hb]

theorem readTag_negfixint (k : Nat) (hk : k ≤ 31) (r : List Nat) :
    readTag ((0xE0 + k) :: r) = .ok (.mint ((k : Int) - 32), r) := by
  interval_cases k <;> rfl

theorem readTag_fixmap (len : Nat) (hlen : len ≤ 15) (r : List Nat) :
    readTag ((0x80 + len) :: r) = .ok (.mmap len, r) := by
  interval_cases len <;> rfl

theorem readTag_fixarr (len : Nat) (hlen : len ≤ 15) (r : List Nat) :
    readTag ((0x90 + len) :: r) = .ok (.marr len, r) := by
  interval_cases len <;> rfl

theorem readTag_fixstr (len : Nat) (hlen : len ≤ 31) (r : List Nat) :
    readTag ((0xA0 + len) :: r) = .ok (.mstr len, r) := by
  interval_cases len <;> rfl

theorem readTag_bin8 (r : List Nat) : readTag (0xC4 :: r) = readLenTag 1 .mbin r := rfl

theorem readTag_bin16 (r : List Nat) : readTag (0xC5 :: r) = readLenTag 2 .mbin r := rfl

theorem readTag_bin32 (r : List Nat) : readTag (0xC6 :: r) = readLenTag 4 .mbin r := rfl

theorem readTag_float64 (r : List Nat) : readTag (0xCB :: r) = readLenTag 8 .mfloat64 r := rfl

theorem readTag_uint8 (r : List Nat) : readTag (0xCC :: r) = readLenTag 1 .muint r := rfl

theorem readTag_uint16 (r : List Nat) : readTag (0xCD :: r) = readLenTag 2 .muint r := rfl

theorem readTag_uint32 (r : List Nat) : readTag (0xCE :: r) = readLenTag 4 .muint r := rfl

theorem readTag_uint64 (r : List Nat) : readTag (0xCF :: r) = readLenTag 8 .muint r := rfl

theorem readTag_int8 (r : List Nat) :
    readTag (0xD0 :: r) = readLenTag 1 (fun v => .mint (signExtend 8 v)) r := rfl

theorem readTag_int16 (r : List Nat) :
    readTag (0xD1 :: r) = readLenTag 2 (fun v => .mint (signExtend 16 v)) r := rfl

theorem readTag_int32 (r : List Nat) :
    readTag (0xD2 :: r) = readLenTag 4 (fun v => .mint (signExtend 32 v)) r := rfl

theorem readTag_int64 (r : List Nat) :
    readTag (0xD3 :: r) = readLenTag 8 (fun v => .mint (signExtend 64 v)) r := rfl

theorem readTag_str8 (r : List Nat) : readTag (0xD9 :: r) = readLenTag 1 .mstr r := rfl

theorem readTag_str16 (r : List Nat) : readTag (0xDA :: r) = readLenTag 2 .mstr r := rfl

theorem readTag_str32 (r : List Nat) : readTag (0xDB :: r) = readLenTag 4 .mstr r := rfl

theorem readTag_arr16 (r : List Nat) : readTag (0xDC :: r) = readLenTag 2 .marr r := rfl

theorem readTag_arr32 (r : List Nat) : readTag (0xDD :: r) = readLenTag 4 .marr r := rfl

theorem readTag_map16 (r : List Nat) : readTag (0xDE :: r) = readLenTag 2 .mmap r := rfl

theorem readTag_map32 (r : List Nat) : readTag (0xDF :: r) = readLenTag 4 .mmap r := rfl

theorem readLenTag_of_takeBE (w : Nat) (mk : Nat → MTag) (input : List Nat) (n : Nat)
    (rest : List Nat) (h : takeBE w input = some (n, rest)) :
    readLenTag w mk input = .ok (mk n, rest) := by
  simp [readLenTag, h]

theorem not_gt_int32max {n : Nat} (h : n < 2 ^ 31) : ¬ n > INT32_MAX_N := by
  unfold INT32_MAX_N
  omega

/-! ## Encoded-string shapes -/

theorem encode_str_shape_fix (s : List Nat) (h : s.length < 32) :
    encode_msgpack_string s .string = (0xA0 + s.length) :: s := by
  simp [encode_msgpack_string, h]

theorem encode_str_shape_8 (s : List Nat) (h1 : 32 ≤ s.length) (h2 : s.length ≤ 0xFF) :
    encode_msgpack_string s .string = 0xD9 :: (encode_int_without_tag s.length 1 ++ s) := by
  unfold encode_msgpack_string
  rw [if_neg (by rintro ⟨h, _⟩; omega), if_pos h2]
  simp [encode_int_tagged]

theorem encode_str_shape_16 (s : List Nat) (h1 : 0xFF < s.length) (h2 : s.length ≤ 0xFFFF) :
    encode_msgpack_string s .string = 0xDA :: (encode_int_without_tag s.length 2 ++ s) := by
  unfold encode_msgpack_string
  rw [if_neg (by rintro ⟨h, _⟩; omega), if_neg (by omega), if_pos h2]
  simp [encode_int_tagged]

theorem encode_str_shape_32 (s : List Nat) (h1 : 0xFFFF < s.length) :
    encode_msgpack_string s .string = 0xDB :: (encode_int_without_tag s.length 4 ++ s) := by
  unfold encode_msgpack_string
  rw [if_neg (by rintro ⟨h, _⟩; omega), if_neg (by omega), if_neg (by omega)]
  simp [encode_int_tagged]

theorem encode_bin_shape_8 (s : List Nat) (h2 : s.length ≤ 0xFF) :
    encode_msgpack_string s .bytes = 0xC4 :: (encode_int_without_tag s.length 1 ++ s) := by
  unfold encode_msgpack_string
  rw [if_neg (by rintro ⟨_, h⟩; cases h), if_pos h2]
  simp [encode_int_tagged]

theorem encode_bin_shape_16 (s : List Nat) (h1 : 0xFF < s.length) (h2 : s.length ≤ 0xFFFF) :
    encode_msgpack_string s .bytes = 0xC5 :: (encode_int_without_tag s.length 2 ++ s) := by
  unfold encode_msgpack_string
  rw [if_neg (by rintro ⟨_, h⟩; cases h), if_neg (by omega), if_pos h2]
  simp [encode_int_tagged]

theorem encode_bin_shape_32 (s : List Nat) (h1 : 0xFFFF < s.length) :
    encode_msgpack_string s .bytes = 0xC6 :: (encode_int_without_tag s.length 4 ++ s) := by
  unfold encode_msgpack_string
  rw [if_neg (by rintro ⟨_, h⟩; cases h), if_neg (by omega), if_neg (by omega)]
  simp [encode_int_tagged]

/-! ## Encoded-integer shapes -/

theorem uint64_of_int_small (i : Int) (h0 : 0 ≤ i) (h : i < 2 ^ 64) :
    uint64_of_int i = i.toNat := by
  unfold uint64_of_int
  rw [Int.emod_eq_of_lt h0 h]

theorem uint64_of_int_neg (i : Int) (h0 : -(2 ^ 64) ≤ i) (h : i < 0) :
    uint64_of_int i = (i + 2 ^ 64).toNat := by
  unfold uint64_of_int
  have : i % 2 ^ 64 = i + 2 ^ 64 := by omega
  rw [this]

theorem encode_msgpack_int_true_nonneg (i : Int) (h0 : 0 ≤ i) :
    encode_msgpack_int i true = encode_msgpack_int i false := by
  unfold encode_msgpack_int
  rw [if_pos (Or.inl h0), if_pos (Or.inl h0)]

theorem encode_int_shape_posfix (i : Int) (h0 : 0 ≤ i) (h : i ≤ 127) :
    encode_msgpack_int i false = [i.toNat] := by
  unfold encode_msgpack_int
  rw [if_pos (Or.inl h0), uint64_of_int_small i h0 (by omega), if_pos (by omega)]

theorem encode_int_shape_u8 (i : Int) (h0 : 128 ≤ i) (h : i ≤ 0xFF) :
    encode_msgpack_int i false = 0xCC :: encode_int_without_tag i.toNat 1 := by
  unfold encode_msgpack_int
  rw [if_pos (Or.inl (by omega)), uint64_of_int_small i (by omega) (by omega),
    if_neg (by omega), if_pos (by omega)]
  rfl

theorem encode_int_shape_u16 (i : Int) (h0 : 0xFF < i) (h : i ≤ 0xFFFF) :
    encode_msgpack_int i false = 0xCD :: encode_int_without_tag i.toNat 2 := by
  unfold encode_msgpack_int
  rw [if_pos (Or.inl (by omega)), uint64_of_int_small i (by omega) (by omega),
    if_neg (by omega), if_neg (by omega), if_pos (by omega)]
  rfl

theorem encode_int_shape_u32 (i : Int) (h0 : 0xFFFF < i) (h : i ≤ 0xFFFFFFFF) :
    encode_msgpack_int i false = 0xCE :: encode_int_without_tag i.toNat 4 := by
  unfold encode_msgpack_int
  rw [if_pos (Or.inl (by omega)), uint64_of_int_small i (by omega) (by omega),
    if_neg (by omega), if_neg (by omega), if_neg (by omega), if_pos (by omega)]
  rfl

theorem encode_int_shape_u64 (i : Int) (h0 : 0xFFFFFFFF < i) (h : i < 2 ^ 64) :
    encode_msgpack_int i false = 0xCF :: encode_int_without_tag i.toNat 8 := by
  unfold encode_msgpack_int
  rw [if_pos (Or.inl (by omega)), uint64_of_int_small i (by omega) (by omega),
    if_neg (by omega), if_neg (by omega), if_neg (by omega), if_neg (by omega)]
  rfl

theorem encode_int_shape_negfix (i : Int) (h0 : -32 ≤ i) (h : i ≤ -1) :
    encode_msgpack_int i false = [0xE0 + (i + 32).toNat] := by
  unfold encode_msgpack_int
  rw [if_neg (by rintro (h1 | h1) <;> first | omega | exact Bool.noConfusion h1), if_pos h0]

theorem encode_int_shape_i8 (i : Int) (h0 : -128 ≤ i) (h : i ≤ -33) :
    encode_msgpack_int i false = 0xD0 :: encode_int_without_tag (i + 2 ^ 8).toNat 1 := by
  unfold encode_msgpack_int
  rw [if_neg (by rintro (h1 | h1) <;> first | omega | exact Bool.noConfusion h1), if_neg (by omega), if_pos h0]
  rfl

theorem encode_int_shape_i16 (i : Int) (h0 : -32768 ≤ i) (h : i ≤ -129) :
    encode_msgpack_int i false = 0xD1 :: encode_int_without_tag (i + 2 ^ 16).toNat 2 := by
  unfold encode_msgpack_int
  rw [if_neg (by rintro (h1 | h1) <;> first | omega | exact Bool.noConfusion h1), if_neg (by omega), if_neg (by omega), if_pos h0]
  rfl

theorem encode_int_shape_i32 (i : Int) (h0 : -(2 ^ 31 : Int) ≤ i) (h : i ≤ -32769) :
    encode_msgpack_int i false = 0xD2 :: encode_int_without_tag (i + 2 ^ 32).toNat 4 := by
  unfold encode_msgpack_int
  rw [if_neg (by rintro (h1 | h1) <;> first | omega | exact Bool.noConfusion h1), if_neg (by omega), if_neg (by omega),
    if_neg (by omega), if_pos h0]
  rfl

theorem encode_int_shape_i64 (i : Int) (h0 : -(2 ^ 63 : Int) ≤ i) (h : i < -(2 ^ 31 : Int)) :
    encode_msgpack_int i false = 0xD3 :: encode_int_without_tag (i + 2 ^ 64).toNat 8 := by
  unfold encode_msgpack_int
  rw [if_neg (by rintro (h1 | h1) <;> first | omega | exact Bool.noConfusion h1), if_neg (by omega), if_neg (by omega),
    if_neg (by omega), if_neg (by omega), uint64_of_int_neg i (by omega) (by omega)]
  rfl

/-! ## Symbolic decode lemmas -/

theorem decode_msgpack_string_str (cfg : DecCfg) (s r : List Nat)
    (hlen : s.length < 2 ^ 31) (hcfg : cfg.string_type ≠ .buffer) :
    decode_msgpack_string cfg s.length .string (s ++ r) =
      if utf8Valid s = true then .ok (strResult cfg.string_type s, r)
      else .error errInvalidUtf8 := by
  unfold decode_msgpack_string
  rw [if_neg (not_gt_int32max hlen), takeN_append]
  cases hst : cfg.string_type with
  | buffer => exact absurd hst hcfg
  | string => simp [strResult]
  | symbol => simp [strResult]
  | keyword => simp [strResult]

theorem decode_msgpack_string_bin (cfg : DecCfg) (s r : List Nat)
    (hlen : s.length < 2 ^ 31) (hcfg : cfg.bin_type = .mutable) :
    decode_msgpack_string cfg s.length .bytes (s ++ r) =
      .ok (.jbuffer (cstring_read (s ++ r)), r) := by
  unfold decode_msgpack_string
  rw [if_neg (not_gt_int32max hlen), takeN_append]
  simp [hcfg]

theorem decodeVal_rt_mstr (cfg : DecCfg) (b : Nat) (input : List Nat) (len : Nat)
    (rest : List Nat) (hrt : readTag input = .ok (.mstr len, rest)) :
    decodeVal (b + 1) cfg input = decode_msgpack_string cfg len .string rest := by
  simp [decodeVal, hrt]

theorem decodeVal_rt_mbin (cfg : DecCfg) (b : Nat) (input : List Nat) (len : Nat)
    (rest : List Nat) (hrt : readTag input = .ok (.mbin len, rest)) :
    decodeVal (b + 1) cfg input = decode_msgpack_string cfg len .bytes rest := by
  simp [decodeVal, hrt]

theorem decodeVal_rt_mnil (cfg : DecCfg) (b : Nat) (input rest : List Nat)
    (hrt : readTag input = .ok (.mnil, rest)) :
    decodeVal (b + 1) cfg input = .ok (.jnil, rest) := by
  simp [decodeVal, hrt]

theorem decodeVal_rt_mbool (cfg : DecCfg) (b : Nat) (input rest : List Nat) (x : Bool)
    (hrt : readTag input = .ok (.mbool x, rest)) :
    decodeVal (b + 1) cfg input = .ok (.jbool x, rest) := by
  simp [decodeVal, hrt]

theorem decodeVal_rt_mfloat64 (cfg : DecCfg) (b : Nat) (input rest : List Nat) (bits : Nat)
    (hrt : readTag input = .ok (.mfloat64 bits, rest)) :
    decodeVal (b + 1) cfg input = .ok (.jnum_double bits, rest) := by
  simp [decodeVal, hrt]

theorem decodeVal_rt_muint (cfg : DecCfg) (b : Nat) (input rest : List Nat) (n : Nat)
    (hrt : readTag input = .ok (.muint n, rest)) :
    decodeVal (b + 1) cfg input =
      if n ≤ 2 ^ 31 - 1 then .ok (.jnum_int (n : Int), rest) else .ok (.ju64 n, rest) := by
  simp [decodeVal, hrt]

theorem decodeVal_rt_mint (cfg : DecCfg) (b : Nat) (input rest : List Nat) (i : Int)
    (hrt : readTag input = .ok (.mint i, rest)) :
    decodeVal (b + 1) cfg input =
      if -(2 ^ 31 : Int) ≤ i ∧ i ≤ 2 ^ 31 - 1 then .ok (.jnum_int i, rest)
      else .ok (.js64 i, rest) := by
  simp [decodeVal, hrt]

theorem decodeVal_rt_marr (cfg : DecCfg) (b : Nat) (input rest : List Nat) (len : Nat)
    (hrt : readTag input = .ok (.marr len, rest)) (hlen : len ≤ INT32_MAX_N) :
    decodeVal (b + 1) cfg input =
      match decodeElems (decodeVal b cfg) len rest with
      | .error e => .error e
      | .ok (vs, r2) =>
        if cfg.array_type = .mutable then .ok (.jarray vs, r2) else .ok (.jtuple vs, r2) := by
  simp only [decodeVal, hrt]
  rw [if_neg (by omega)]

theorem decodeVal_rt_mmap (cfg : DecCfg) (b : Nat) (input rest : List Nat) (len : Nat)
    (hrt : readTag input = .ok (.mmap len, rest)) (hlen : len ≤ INT32_MAX_N) :
    decodeVal (b + 1) cfg input =
      match
        decodeEntries (decodeVal b { cfg with string_type := .keyword })
          (decodeVal b cfg) len rest with
      | .error e => .error e
      | .ok (ps, r2) =>
        if cfg.array_type = .mutable then
          .ok (.jtable (ps.foldl (fun t kv => tablePut t kv.1 kv.2) []), r2)
        else
          .ok (.jstruct (ps.foldl (fun t kv => structPut t kv.1 kv.2) []), r2) := by
  simp only [decodeVal, hrt]
  rw [if_neg (by omega)]

/-- Decoding an encoded wire `str` under any configuration whose `str`
target is not a buffer: the payload comes back as the configured host
type when it is valid UTF-8 and the decode fails otherwise. -/
theorem decodeVal_str_enc (cfg : DecCfg) (b : Nat) (s r : List Nat)
    (hlen : s.length < 2 ^ 31) (hcfg : cfg.string_type ≠ .buffer) :
    decodeVal (b + 1) cfg (encode_msgpack_string s .string ++ r) =
      if utf8Valid s = true then .ok (strResult cfg.string_type s, r)
      else .error errInvalidUtf8 := by
  rcases Nat.lt_or_ge s.length 32 with h1 | h1
  · rw [encode_str_shape_fix s h1, List.cons_append,
      decodeVal_rt_mstr cfg b _ s.length (s ++ r) (readTag_fixstr s.length (by omega) (s ++ r)),
      decode_msgpack_string_str cfg s r hlen hcfg]
  · rcases Nat.lt_or_ge s.length 256 with h2 | h2
    · rw [encode_str_shape_8 s h1 (by omega), List.cons_append, List.append_assoc,
        decodeVal_rt_mstr cfg b _ s.length (s ++ r)
          (by rw [readTag_str8]
              exact readLenTag_of_takeBE 1 _ _ s.length (s ++ r)
                (takeBE_one s.length (by omega) (s ++ r))),
        decode_msgpack_string_str cfg s r hlen hcfg]
    · rcases Nat.lt_or_ge s.length 65536 with h3 | h3
      · rw [encode_str_shape_16 s (by omega) (by omega), List.cons_append, List.append_assoc,
          decodeVal_rt_mstr cfg b _ s.length (s ++ r)
            (by rw [readTag_str16]
                exact readLenTag_of_takeBE 2 _ _ s.length (s ++ r)
                  (takeBE_two s.length (by omega) (s ++ r))),
          decode_msgpack_string_str cfg s r hlen hcfg]
      · rw [encode_str_shape_32 s (by omega), List.cons_append, List.append_assoc,
          decodeVal_rt_mstr cfg b _ s.length (s ++ r)
            (by rw [readTag_str32]
                exact readLenTag_of_takeBE 4 _ _ s.length (s ++ r)
                  (takeBE_four s.length (by omega) (s ++ r))),
          decode_msgpack_string_str cfg s r hlen hcfg]

/-- Decoding an encoded wire `bin` under a configuration whose `bin`
target is mutable: the result is a buffer filled by the C-string copy of
the in-place payload pointer. -/
theorem decodeVal_bin_enc (cfg : DecCfg) (b : Nat) (s r : List Nat)
    (hlen : s.length < 2 ^ 31) (hcfg : cfg.bin_type = .mutable) :
    decodeVal (b + 1) cfg (encode_msgpack_string s .bytes ++ r) =
      .ok (.jbuffer (cstring_read (s ++ r)), r) := by
  rcases Nat.lt_or_ge s.length 256 with h2 | h2
  · rw [encode_bin_shape_8 s (by omega), List.cons_append, List.append_assoc,
      decodeVal_rt_mbin cfg b _ s.length (s ++ r)
        (by rw [readTag_bin8]
            exact readLenTag_of_takeBE 1 _ _ s.length (s ++ r)
              (takeBE_one s.length (by omega) (s ++ r))),
      decode_msgpack_string_bin cfg s r hlen hcfg]
  · rcases Nat.lt_or_ge s.length 65536 with h3 | h3
    · rw [encode_bin_shape_16 s (by omega) (by omega), List.cons_append, List.append_assoc,
        decodeVal_rt_mbin cfg b _ s.length (s ++ r)
          (by rw [readTag_bin16]
              exact readLenTag_of_takeBE 2 _ _ s.length (s ++ r)
                (takeBE_two s.length (by omega) (s ++ r))),
        decode_msgpack_string_bin cfg s r hlen hcfg]
    · rw [encode_bin_shape_32 s (by omega), List.cons_append, List.append_assoc,
        decodeVal_rt_mbin cfg b _ s.length (s ++ r)
          (by rw [readTag_bin32]
              exact readLenTag_of_takeBE 4 _ _ s.length (s ++ r)
                (takeBE_four s.length (by omega) (s ++ r))),
        decode_msgpack_string_bin cfg s r hlen hcfg]


/-- Decoding an encoded `janet_checkint` number (under any configuration)
recovers the number. -/
theorem decodeVal_int_enc (cfg : DecCfg) (b : Nat) (i : Int) (r : List Nat)
    (h1 : -(2 ^ 31 : Int) ≤ i) (h2 : i < 2 ^ 31) :
    decodeVal (b + 1) cfg (encode_msgpack_int i false ++ r) = .ok (.jnum_int i, r) := by
  rcases lt_or_le i 0 with hneg | hpos
  · rcases le_or_lt (-32) i with ha | ha
    · rw [encode_int_shape_negfix i ha (by omega)]
      rw [show ([0xE0 + (i + 32).toNat] ++ r) = (0xE0 + (i + 32).toNat) :: r from rfl]
      rw [decodeVal_rt_mint cfg b _ r (((i + 32).toNat : Int) - 32)
        (readTag_negfixint (i + 32).toNat (by omega) r)]
      have hv : ((i + 32).toNat : Int) - 32 = i := by omega
      rw [hv, if_pos (by omega)]
    · rcases le_or_lt (-128) i with hb | hb
      · rw [encode_int_shape_i8 i hb (by omega), List.cons_append]
        rw [decodeVal_rt_mint cfg b _ r (signExtend 8 (i + 2 ^ 8).toNat)
          (by rw [readTag_int8]
              exact readLenTag_of_takeBE 1 _ _ (i + 2 ^ 8).toNat r
                (takeBE_one (i + 2 ^ 8).toNat (by omega) r))]
        have hse : signExtend 8 (i + 2 ^ 8).toNat = i := by
          unfold signExtend
          split_ifs <;> omega
        rw [hse, if_pos (by omega)]
      · rcases le_or_lt (-32768) i with hc | hc
        · rw [encode_int_shape_i16 i hc (by omega), List.cons_append]
          rw [decodeVal_rt_mint cfg b _ r (signExtend 16 (i + 2 ^ 16).toNat)
            (by rw [readTag_int16]
                exact readLenTag_of_takeBE 2 _ _ (i + 2 ^ 16).toNat r
                  (takeBE_two (i + 2 ^ 16).toNat (by omega) r))]
          have hse : signExtend 16 (i + 2 ^ 16).toNat = i := by
            unfold signExtend
            split_ifs <;> omega
          rw [hse, if_pos (by omega)]
        · rw [encode_int_shape_i32 i h1 (by omega), List.cons_append]
          rw [decodeVal_rt_mint cfg b _ r (signExtend 32 (i + 2 ^ 32).toNat)
            (by rw [readTag_int32]
                exact readLenTag_of_takeBE 4 _ _ (i + 2 ^ 32).toNat r
                  (takeBE_four (i + 2 ^ 32).toNat (by omega) r))]
          have hse : signExtend 32 (i + 2 ^ 32).toNat = i := by
            unfold signExtend
            split_ifs <;> omega
          rw [hse, if_pos (by omega)]
  · rcases le_or_lt i 127 with ha | ha
    · rw [encode_int_shape_posfix i hpos ha]
      rw [show ([i.toNat] ++ r) = i.toNat :: r from rfl]
      rw [decodeVal_rt_muint cfg b _ r i.toNat (readTag_posfixint i.toNat (by omega) r)]
      have hv : (i.toNat : Int) = i := by omega
      rw [if_pos (by omega), hv]
    · rcases le_or_lt i 0xFF with hb | hb
      · rw [encode_int_shape_u8 i (by omega) hb, List.cons_append]
        rw [decodeVal_rt_muint cfg b _ r i.toNat
          (by rw [readTag_uint8]
              exact readLenTag_of_takeBE 1 _ _ i.toNat r
                (takeBE_one i.toNat (by omega) r))]
        have hv : (i.toNat : Int) = i := by omega
        rw [if_pos (by omega), hv]
      · rcases le_or_lt i 0xFFFF with hc | hc
        · rw [encode_int_shape_u16 i hb hc, List.cons_append]
          rw [decodeVal_rt_muint cfg b _ r i.toNat
            (by rw [readTag_uint16]
                exact readLenTag_of_takeBE 2 _ _ i.toNat r
                  (takeBE_two i.toNat (by omega) r))]
          have hv : (i.toNat : Int) = i := by omega
          rw [if_pos (by omega), hv]
        · rw [encode_int_shape_u32 i hc (by omega), List.cons_append]
          rw [decodeVal_rt_muint cfg b _ r i.toNat
            (by rw [readTag_uint32]
                exact readLenTag_of_takeBE 4 _ _ i.toNat r
                  (takeBE_four i.toNat (by omega) r))]
          have hv : (i.toNat : Int) = i := by omega
          rw [if_pos (by omega), hv]

/-- Decoding an encoded `int/s64` value outside the int32 range recovers
the boxed `int/s64` value. -/
theorem decodeVal_s64_enc (cfg : DecCfg) (b : Nat) (i : Int) (r : List Nat)
    (h1 : -(2 ^ 63 : Int) ≤ i) (h2 : i < -(2 ^ 31 : Int)) :
    decodeVal (b + 1) cfg (encode_msgpack_int i false ++ r) = .ok (.js64 i, r) := by
  rw [encode_int_shape_i64 i h1 h2, List.cons_append]
  rw [decodeVal_rt_mint cfg b _ r (signExtend 64 (i + 2 ^ 64).toNat)
    (by rw [readTag_int64]
        exact readLenTag_of_takeBE 8 _ _ (i + 2 ^ 64).toNat r
          (takeBE_eight (i + 2 ^ 64).toNat (by omega) r))]
  have hse : signExtend 64 (i + 2 ^ 64).toNat = i := by
    unfold signExtend
    split_ifs <;> omega
  rw [hse, if_neg (by omega)]

/-- Decoding an encoded `int/u64` value above the int32 range and below
`2 ^ 63` recovers the boxed `int/u64` value. -/
theorem decodeVal_u64_enc (cfg : DecCfg) (b : Nat) (n : Nat) (r : List Nat)
    (h1 : 2 ^ 31 ≤ n) (h2 : n < 2 ^ 63) :
    decodeVal (b + 1) cfg (encode_msgpack_int (int64_of_uint64 n) true ++ r) =
      .ok (.ju64 n, r) := by
  have hcast : int64_of_uint64 n = (n : Int) := by
    unfold int64_of_uint64
    rw [if_pos (by omega)]
  rw [hcast, encode_msgpack_int_true_nonneg (n : Int) (by omega)]
  have hn : ((n : Int)).toNat = n := Int.toNat_natCast n
  rcases le_or_lt n 0xFFFFFFFF with ha | ha
  · rw [encode_int_shape_u32 (n : Int) (by omega) (by omega), hn, List.cons_append]
    rw [decodeVal_rt_muint cfg b _ r n
      (by rw [readTag_uint32]
          exact readLenTag_of_takeBE 4 _ _ n r (takeBE_four n (by omega) r))]
    rw [if_neg (by omega)]
  · rw [encode_int_shape_u64 (n : Int) (by omega) (by omega), hn, List.cons_append]
    rw [decodeVal_rt_muint cfg b _ r n
      (by rw [readTag_uint64]
          exact readLenTag_of_takeBE 8 _ _ n r (takeBE_eight n (by omega) r))]
    rw [if_neg (by omega)]

/-- Decoding an encoded non-`checkint` double recovers its bit pattern. -/
theorem decodeVal_double_enc (cfg : DecCfg) (b : Nat) (bits : Nat) (r : List Nat)
    (h : bits < 2 ^ 64) :
    decodeVal (b + 1) cfg ((0xCB :: encode_int_without_tag bits 8) ++ r) =
      .ok (.jnum_double bits, r) := by
  rw [List.cons_append]
  rw [decodeVal_rt_mfloat64 cfg b _ r bits
    (by rw [readTag_float64]
        exact readLenTag_of_takeBE 8 _ _ bits r (takeBE_eight bits h r))]

/-- Reading back an array header written by
`encode_msgpack_collection_length`. -/
theorem readTag_coll_arr (len : Nat) (r : List Nat) (h : len < 2 ^ 31) :
    readTag (encode_msgpack_collection_length len 0x90 0xDC ++ r) = .ok (.marr len, r) := by
  unfold encode_msgpack_collection_length
  rcases le_or_lt len 15 with h1 | h1
  · rw [if_pos h1]
    exact readTag_fixarr len h1 r
  · rcases le_or_lt len 0xFFFF with h2 | h2
    · rw [if_neg (by omega), if_pos h2, List.cons_append, readTag_arr16]
      exact readLenTag_of_takeBE 2 _ _ len r (takeBE_two len (by omega) r)
    · rw [if_neg (by omega), if_neg (by omega), List.cons_append, readTag_arr32]
      exact readLenTag_of_takeBE 4 _ _ len r (takeBE_four len (by omega) r)

/-- Reading back a map header written by
`encode_msgpack_collection_length`. -/
theorem readTag_coll_map (len : Nat) (r : List Nat) (h : len < 2 ^ 31) :
    readTag (encode_msgpack_collection_length len 0x80 0xDE ++ r) = .ok (.mmap len, r) := by
  unfold encode_msgpack_collection_length
  rcases le_or_lt len 15 with h1 | h1
  · rw [if_pos h1]
    exact readTag_fixmap len h1 r
  · rcases le_or_lt len 0xFFFF with h2 | h2
    · rw [if_neg (by omega), if_pos h2, List.cons_append, readTag_map16]
      exact readLenTag_of_takeBE 2 _ _ len r (takeBE_two len (by omega) r)
    · rw [if_neg (by omega), if_neg (by omega), List.cons_append, readTag_map32]
      exact readLenTag_of_takeBE 4 _ _ len r (takeBE_four len (by omega) r)


/-! ## The round-trip class: projections and container lemmas -/

theorem GoodKey_not_nil (k : JVal) (h : GoodKey k = true) : k.isNil = false := by
  cases k <;> simp_all [GoodKey, JVal.isNil]

theorem GoodList_mem (xs : List JVal) (h : GoodList xs = true) :
    ∀ x ∈ xs, Good x = true := by
  induction xs with
  | nil => intro x hx; cases hx
  | cons y ys ih =>
    intro x hx
    rw [GoodList] at h
    rw [Bool.and_eq_true] at h
    rcases List.mem_cons.mp hx with rfl | hx2
    · exact h.1
    · exact ih h.2 x hx2

theorem GoodSlots_mem (slots : List (JVal × JVal)) (h : GoodSlots slots = true) :
    ∀ kv ∈ slots, GoodKey kv.1 = true ∧ Good kv.2 = true ∧ kv.2.isNil = false := by
  induction slots with
  | nil => intro kv hkv; cases hkv
  | cons p ps ih =>
    intro kv hkv
    obtain ⟨k, v⟩ := p
    rw [GoodSlots] at h
    simp only [Bool.and_eq_true, Bool.not_eq_true'] at h
    rcases List.mem_cons.mp hkv with rfl | hkv2
    · exact ⟨h.1.1.1, h.1.1.2, h.1.2⟩
    · exact ih h.2 kv hkv2

theorem liveSlots_eq_self (slots : List (JVal × JVal))
    (h : ∀ kv ∈ slots, kv.1.isNil = false) : liveSlots slots = slots := by
  unfold liveSlots
  rw [List.filter_eq_self]
  intro kv hkv
  simp [h kv hkv]

theorem nodupKeys_head (k : JVal) (v : JVal) (rest : List (JVal × JVal))
    (h : nodupKeys ((k, v) :: rest) = true) :
    (∀ kv ∈ rest, JVal.beq k kv.1 = false) ∧ nodupKeys rest = true := by
  rw [nodupKeys] at h
  rw [Bool.and_eq_true, List.all_eq_true] at h
  refine ⟨fun kv hkv => ?_, h.2⟩
  have := h.1 kv hkv
  simpa using this

theorem foldl_tablePut_fresh (slots : List (JVal × JVal)) :
    ∀ acc : List (JVal × JVal),
      (∀ kv ∈ slots, kv.1.isNil = false ∧ kv.2.isNil = false) →
      (∀ kv ∈ slots, (acc.any fun kv2 => JVal.beq kv2.1 kv.1) = false) →
      nodupKeys slots = true →
      slots.foldl (fun t kv => tablePut t kv.1 kv.2) acc = acc ++ slots := by
  induction slots with
  | nil => intro acc _ _ _; simp
  | cons p rest ih =>
    intro acc hnil hfresh hnd
    obtain ⟨k, v⟩ := p
    obtain ⟨hbeq, hndrest⟩ := nodupKeys_head k v rest hnd
    have hk : k.isNil = false := (hnil (k, v) (List.mem_cons_self _ _)).1
    have hv : v.isNil = false := (hnil (k, v) (List.mem_cons_self _ _)).2
    have hacc : (acc.any fun kv2 => JVal.beq kv2.1 k) = false :=
      hfresh (k, v) (List.mem_cons_self _ _)
    simp only [List.foldl_cons]
    have hput : tablePut acc k v = acc ++ [(k, v)] := by
      unfold tablePut
      simp [hk, hv, hacc]
    rw [hput]
    rw [ih (acc ++ [(k, v)])
      (fun kv hkv => hnil kv (List.mem_cons_of_mem _ hkv))
      (fun kv hkv => by
        rw [List.any_append]
        rw [hfresh kv (List.mem_cons_of_mem _ hkv)]
        simp [hbeq kv hkv])
      hndrest]
    simp

theorem decodeElems_step (child : List Nat → Except String (JVal × List Nat)) (c : Nat)
    (input : List Nat) (v : JVal) (r : List Nat) (h : child input = .ok (v, r)) :
    decodeElems child (c + 1) input =
      match decodeElems child c r with
      | .error e => .error e
      | .ok (vs, r2) => .ok (v :: vs, r2) := by
  simp only [decodeElems, h]

theorem decodeEntries_step (dkey dval : List Nat → Except String (JVal × List Nat)) (c : Nat)
    (input : List Nat) (k : JVal) (r1 : List Nat) (v : JVal) (r2 : List Nat)
    (hk : dkey input = .ok (k, r1)) (hv : dval r1 = .ok (v, r2)) :
    decodeEntries dkey dval (c + 1) input =
      match decodeEntries dkey dval c r2 with
      | .error e => .error e
      | .ok (ps, r3) => .ok ((k, v) :: ps, r3) := by
  simp only [decodeEntries, hk, hv]

theorem roundtrip_elems (b : Nat) (xs : List JVal)
    (IH : ∀ x ∈ xs, ∀ bs r : List Nat, encodeVal b defaultEncCfg x = .ok bs →
      decodeVal b defaultDecCfg (bs ++ r) = .ok (x, r)) :
    ∀ bs r : List Nat, encodeElems (encodeVal b defaultEncCfg) xs = .ok bs →
      decodeElems (decodeVal b defaultDecCfg) xs.length (bs ++ r) = .ok (xs, r) := by
  induction xs with
  | nil =>
    intro bs r henc
    rw [encodeElems] at henc
    cases henc
    rw [List.length_nil, decodeElems, List.nil_append]
  | cons x rest ih =>
    intro bs r henc
    rw [encodeElems] at henc
    cases hx : encodeVal b defaultEncCfg x with
    | error e => rw [hx] at henc; cases henc
    | ok ebytes =>
      rw [hx] at henc
      cases hrest : encodeElems (encodeVal b defaultEncCfg) rest with
      | error e => rw [hrest] at henc; cases henc
      | ok rbytes =>
        rw [hrest] at henc
        cases henc
        rw [List.length_cons, List.append_assoc]
        rw [decodeElems_step _ rest.length _ x (rbytes ++ r)
          (IH x (List.mem_cons_self _ _) ebytes (rbytes ++ r) hx)]
        rw [ih (fun y hy => IH y (List.mem_cons_of_mem _ hy)) rbytes r hrest]

theorem roundtrip_entries (b : Nat) (slots : List (JVal × JVal))
    (IH : ∀ kv ∈ slots, ∀ bs r : List Nat, encodeVal b defaultEncCfg kv.2 = .ok bs →
      decodeVal b defaultDecCfg (bs ++ r) = .ok (kv.2, r))
    (hgs : GoodSlots slots = true) :
    ∀ bs r : List Nat, encodeKVs (encodeVal b defaultEncCfg) slots = .ok bs →
      decodeEntries (decodeVal b { defaultDecCfg with string_type := .keyword })
        (decodeVal b defaultDecCfg) slots.length (bs ++ r) = .ok (slots, r) := by
  induction slots with
  | nil =>
    intro bs r henc
    rw [encodeKVs] at henc
    cases henc
    rw [List.length_nil, decodeEntries, List.nil_append]
  | cons p rest ih =>
    intro bs r henc
    obtain ⟨k, v⟩ := p
    have hmem := GoodSlots_mem _ hgs (k, v) (List.mem_cons_self _ _)
    have hgrest : GoodSlots rest = true := by
      rw [GoodSlots] at hgs
      simp only [Bool.and_eq_true] at hgs
      exact hgs.2
    obtain ⟨hk, hgv, hvnil⟩ := hmem
    cases k with
    | jkeyword s =>
      rw [GoodKey, Bool.and_eq_true, decide_eq_true_eq] at hk
      obtain ⟨hutf, hslen⟩ := hk
      simp only [encodeKVs] at henc
      cases b with
      | zero => rw [encodeVal] at henc; cases henc
      | succ b2 =>
        rw [show encodeVal (b2 + 1) defaultEncCfg (.jkeyword s)
            = .ok (encode_msgpack_string s .string) from rfl] at henc
        cases hv : encodeVal (b2 + 1) defaultEncCfg v with
        | error e => rw [hv] at henc; cases henc
        | ok ve =>
          rw [hv] at henc
          cases hrest : encodeKVs (encodeVal (b2 + 1) defaultEncCfg) rest with
          | error e => rw [hrest] at henc; cases henc
          | ok re =>
            rw [hrest] at henc
            cases henc
            rw [List.length_cons, List.append_assoc, List.append_assoc]
            have hkey : decodeVal (b2 + 1) { defaultDecCfg with string_type := .keyword }
                (encode_msgpack_string s .string ++ (ve ++ (re ++ r)))
                = .ok (.jkeyword s, ve ++ (re ++ r)) := by
              rw [decodeVal_str_enc { defaultDecCfg with string_type := .keyword } b2 s
                (ve ++ (re ++ r)) hslen (by simp [defaultDecCfg]), if_pos hutf]
              rfl
            have hval : decodeVal (b2 + 1) defaultDecCfg (ve ++ (re ++ r)) = .ok (v, re ++ r) :=
              IH (.jkeyword s, v) (List.mem_cons_self _ _) ve (re ++ r) hv
            rw [decodeEntries_step _ _ rest.length _ (.jkeyword s) (ve ++ (re ++ r)) v (re ++ r)
              hkey hval]
            rw [ih (fun kv hkv => IH kv (List.mem_cons_of_mem _ hkv)) hgrest re r hrest]
    | jnil => simp [GoodKey] at hk
    | jbool x => simp [GoodKey] at hk
    | jnum_int i => simp [GoodKey] at hk
    | jnum_double bits => simp [GoodKey] at hk
    | jstring s => simp [GoodKey] at hk
    | jbuffer s => simp [GoodKey] at hk
    | jsymbol s => simp [GoodKey] at hk
    | js64 i => simp [GoodKey] at hk
    | ju64 n2 => simp [GoodKey] at hk
    | jtuple xs => simp [GoodKey] at hk
    | jarray xs => simp [GoodKey] at hk
    | jstruct s2 => simp [GoodKey] at hk
    | jtable s2 => simp [GoodKey] at hk


/-- The default-configuration round trip on the `Good` class, generalized
over the recursion budget (`b + 1` is the remaining budget on both sides)
and the unconsumed tail `r`. -/
theorem roundtrip_good : ∀ (n : Nat) (v : JVal), sizeOf v ≤ n → Good v = true →
    ∀ (b : Nat) (bs r : List Nat), encodeVal (b + 1) defaultEncCfg v = .ok bs →
      decodeVal (b + 1) defaultDecCfg (bs ++ r) = .ok (v, r) := by
  intro n
  induction n with
  | zero =>
    intro v hs
    exfalso
    cases v <;> simp at hs
  | succ n ihn =>
    intro v hs hg b bs r henc
    cases v with
    | jnil =>
      rw [show encodeVal (b + 1) defaultEncCfg .jnil = .ok [0xC0] from rfl] at henc
      cases henc
      exact decodeVal_rt_mnil defaultDecCfg b ([0xC0] ++ r) r rfl
    | jbool x =>
      cases x with
      | false =>
        rw [show encodeVal (b + 1) defaultEncCfg (.jbool false) = .ok [0xC2] from rfl] at henc
        cases henc
        exact decodeVal_rt_mbool defaultDecCfg b ([0xC2] ++ r) r false rfl
      | true =>
        rw [show encodeVal (b + 1) defaultEncCfg (.jbool true) = .ok [0xC3] from rfl] at henc
        cases henc
        exact decodeVal_rt_mbool defaultDecCfg b ([0xC3] ++ r) r true rfl
    | jnum_int i =>
      simp only [Good, Bool.and_eq_true, decide_eq_true_eq] at hg
      rw [show encodeVal (b + 1) defaultEncCfg (.jnum_int i)
          = .ok (encode_msgpack_int i false) from rfl] at henc
      cases henc
      exact decodeVal_int_enc defaultDecCfg b i r hg.1 hg.2
    | jnum_double bits =>
      simp only [Good, decide_eq_true_eq] at hg
      rw [show encodeVal (b + 1) defaultEncCfg (.jnum_double bits)
          = .ok (0xCB :: encode_int_without_tag bits 8) from rfl] at henc
      cases henc
      exact decodeVal_double_enc defaultDecCfg b bits r hg
    | jstring s =>
      simp only [Good, Bool.and_eq_true, decide_eq_true_eq] at hg
      rw [show encodeVal (b + 1) defaultEncCfg (.jstring s)
          = .ok (encode_msgpack_string s .string) from rfl] at henc
      cases henc
      rw [decodeVal_str_enc defaultDecCfg b s r hg.2 (by simp [defaultDecCfg]), if_pos hg.1]
      rfl
    | js64 i =>
      simp only [Good, Bool.and_eq_true, decide_eq_true_eq] at hg
      rw [show encodeVal (b + 1) defaultEncCfg (.js64 i)
          = .ok (encode_msgpack_int i false) from rfl] at henc
      cases henc
      exact decodeVal_s64_enc defaultDecCfg b i r hg.1 hg.2
    | ju64 m =>
      simp only [Good, Bool.and_eq_true, decide_eq_true_eq] at hg
      rw [show encodeVal (b + 1) defaultEncCfg (.ju64 m)
          = .ok (encode_msgpack_int (int64_of_uint64 m) true) from rfl] at henc
      cases henc
      exact decodeVal_u64_enc defaultDecCfg b m r hg.1 hg.2
    | jsymbol s => simp [Good] at hg
    | jkeyword s => simp [Good] at hg
    | jbuffer s => simp [Good] at hg
    | jtuple xs => simp [Good] at hg
    | jstruct slots => simp [Good] at hg
    | jarray xs =>
      simp only [Good, Bool.and_eq_true, decide_eq_true_eq] at hg
      obtain ⟨hlen, hgl⟩ := hg
      simp only [encodeVal] at henc
      cases hbody : encodeElems (encodeVal b defaultEncCfg) xs with
      | error e => rw [hbody] at henc; cases henc
      | ok body =>
        rw [hbody] at henc
        cases henc
        rw [List.append_assoc]
        rw [decodeVal_rt_marr defaultDecCfg b _ (body ++ r) xs.length
          (readTag_coll_arr xs.length (body ++ r) hlen) (by unfold INT32_MAX_N; omega)]
        have IHfn : ∀ x ∈ xs, ∀ bs2 r2 : List Nat,
            encodeVal b defaultEncCfg x = .ok bs2 →
            decodeVal b defaultDecCfg (bs2 ++ r2) = .ok (x, r2) := by
          intro x hx bs2 r2 henc2
          cases b with
          | zero => rw [encodeVal] at henc2; cases henc2
          | succ b2 =>
            refine ihn x ?_ (GoodList_mem xs hgl x hx) b2 bs2 r2 henc2
            have h1 := List.sizeOf_lt_of_mem hx
            simp at hs
            omega
        rw [roundtrip_elems b xs IHfn body r hbody]
        rfl
    | jtable slots =>
      simp only [Good, Bool.and_eq_true, decide_eq_true_eq] at hg
      obtain ⟨⟨hlen, hgs⟩, hnd⟩ := hg
      have hmem := GoodSlots_mem slots hgs
      have hnilkeys : ∀ kv ∈ slots, kv.1.isNil = false :=
        fun kv hkv => GoodKey_not_nil kv.1 (hmem kv hkv).1
      have hlive : liveSlots slots = slots := liveSlots_eq_self slots hnilkeys
      simp only [encodeVal] at henc
      cases hbody : encodeKVs (encodeVal b defaultEncCfg) slots with
      | error e => rw [hbody] at henc; cases henc
      | ok body =>
        rw [hbody] at henc
        cases henc
        rw [hlive, List.append_assoc]
        rw [decodeVal_rt_mmap defaultDecCfg b _ (body ++ r) slots.length
          (readTag_coll_map slots.length (body ++ r) hlen) (by unfold INT32_MAX_N; omega)]
        have IHfn : ∀ kv ∈ slots, ∀ bs2 r2 : List Nat,
            encodeVal b defaultEncCfg kv.2 = .ok bs2 →
            decodeVal b defaultDecCfg (bs2 ++ r2) = .ok (kv.2, r2) := by
          intro kv hkv bs2 r2 henc2
          cases b with
          | zero => rw [encodeVal] at henc2; cases henc2
          | succ b2 =>
            refine ihn kv.2 ?_ (hmem kv hkv).2.1 b2 bs2 r2 henc2
            have h1 := List.sizeOf_lt_of_mem hkv
            have h2 : sizeOf kv.2 < sizeOf kv := by
              obtain ⟨k2, v2⟩ := kv
              simp
            simp at hs
            omega
        rw [roundtrip_entries b slots IHfn hgs body r hbody]
        have hfold : slots.foldl (fun t kv => tablePut t kv.1 kv.2) [] = slots := by
          have hf := foldl_tablePut_fresh slots []
            (fun kv hkv => ⟨hnilkeys kv hkv, (hmem kv hkv).2.2⟩)
            (fun kv hkv => by simp)
            hnd
          simpa using hf
        simp [defaultDecCfg, hfold]


/-! ## Claims -/

/-- C2: Encoding the nil host value produces exactly the single byte
`0xC0` (and the encode call succeeds), and decoding the one-byte input
`[0xC0]` succeeds and returns nil. -/
theorem C2_nil_encode_decode :
    msgpack_encode defaultEncCfg .jnil = .ok [0xC0] ∧
    msgpack_decode defaultDecCfg [0xC0] = .ok .jnil :=
  ⟨rfl, rfl⟩

/-- C1 counterexample: `decode(encode v) = v` under the default
configuration fails as stated at the keyword value `:a` — a value not
originating from 32-bit-float wire input — which encodes as the wire str
`[0xA1, 97]` and decodes back to the *string* "a", a different host
value. -/
theorem C1_roundtrip_counterexample :
    msgpack_encode defaultEncCfg (.jkeyword [97]) = .ok [0xA1, 97] ∧
    msgpack_decode defaultDecCfg [0xA1, 97] = .ok (.jstring [97]) ∧
    JVal.jstring [97] ≠ JVal.jkeyword [97] :=
  ⟨rfl, rfl, fun h => JVal.noConfusion h⟩

/-- C1 amended: decoding the bytes produced by encoding `v` under the
default configuration yields `v` for every `v` in the class `Good`: nil,
booleans, `checkint` numbers, other doubles (by bit pattern), valid-UTF-8
strings, `int/s64` values below the int32 range, `int/u64` values between
the int32 range and `2 ^ 63`, arrays of such values, and tables whose
slots carry pairwise-distinct valid-UTF-8 keyword keys and non-nil values
of the class.  Excluded (beyond 32-bit-float wire input, which never
arises here): symbols and keywords outside map keys (they decode as
strings), buffers (they decode through a C-string copy), tuples and
structs (they decode as their mutable counterparts), `int/s64` values
inside the int32 range or positive (they decode as numbers or `int/u64`),
and `int/u64` values below the int32 range or at/above `2 ^ 63`. -/
theorem C1_roundtrip_amended (v : JVal) (hv : Good v = true) (bs : List Nat)
    (henc : msgpack_encode defaultEncCfg v = .ok bs) :
    msgpack_decode defaultDecCfg bs = .ok v := by
  unfold msgpack_encode at henc
  have hdec := roundtrip_good (sizeOf v) v le_rfl hv JANET_RECURSION_GUARD bs [] henc
  rw [List.append_nil] at hdec
  unfold msgpack_decode
  rw [hdec]

/-- Witness for the amended C1 at the table `{:a 1}`. -/
theorem C1_roundtrip_amended_witness :
    Good (.jtable [(.jkeyword [97], .jnum_int 1)]) = true ∧
    msgpack_encode defaultEncCfg (.jtable [(.jkeyword [97], .jnum_int 1)])
      = .ok [0x81, 0xA1, 97, 1] ∧
    msgpack_decode defaultDecCfg [0x81, 0xA1, 97, 1]
      = .ok (.jtable [(.jkeyword [97], .jnum_int 1)]) :=
  ⟨rfl, rfl,
    C1_roundtrip_amended (.jtable [(.jkeyword [97], .jnum_int 1)]) rfl
      [0x81, 0xA1, 97, 1] rfl⟩

/-- C3: the encoder emits the minimal-width integer form for every
signed 64-bit value, matching the spec's rule (`spec_minimal_int_encoding`),
with the spec's four concrete cases. -/
theorem C3_minimal_int_encoding :
    (∀ v : Int, -(2 ^ 63 : Int) ≤ v → v < 2 ^ 63 →
      encode_msgpack_int v false = spec_minimal_int_encoding v) ∧
    encode_msgpack_int 127 false = [0x7F] ∧
    encode_msgpack_int 128 false = [0xCC, 0x80] ∧
    encode_msgpack_int (-1) false = [0xFF] ∧
    encode_msgpack_int (-33) false = [0xD0, 0xDF] := by
  refine ⟨?_, rfl, rfl, rfl, rfl⟩
  intro v h1 h2
  rcases lt_or_le v 0 with hneg | hpos
  · rcases le_or_lt (-32) v with ha | ha
    · rw [encode_int_shape_negfix v ha (by omega)]
      unfold spec_minimal_int_encoding
      rw [if_neg (by omega), if_pos ha]
    · rcases le_or_lt (-128) v with hb | hb
      · rw [encode_int_shape_i8 v hb (by omega)]
        unfold spec_minimal_int_encoding
        rw [if_neg (by omega), if_neg (by omega), if_pos (by omega)]
      · rcases le_or_lt (-32768) v with hc | hc
        · rw [encode_int_shape_i16 v hc (by omega)]
          unfold spec_minimal_int_encoding
          rw [if_neg (by omega), if_neg (by omega), if_neg (by omega), if_pos (by omega)]
        · rcases le_or_lt (-(2 ^ 31 : Int)) v with hd | hd
          · rw [encode_int_shape_i32 v hd (by omega)]
            unfold spec_minimal_int_encoding
            rw [if_neg (by omega), if_neg (by omega), if_neg (by omega), if_neg (by omega),
              if_pos (by omega)]
          · rw [encode_int_shape_i64 v h1 (by omega)]
            unfold spec_minimal_int_encoding
            rw [if_neg (by omega), if_neg (by omega), if_neg (by omega), if_neg (by omega),
              if_neg (by omega)]
  · rcases le_or_lt v 127 with ha | ha
    · rw [encode_int_shape_posfix v hpos ha]
      unfold spec_minimal_int_encoding
      rw [if_pos hpos, if_pos ha]
    · rcases le_or_lt v 0xFF with hb | hb
      · rw [encode_int_shape_u8 v (by omega) hb]
        unfold spec_minimal_int_encoding
        rw [if_pos hpos, if_neg (by omega), if_pos hb]
      · rcases le_or_lt v 0xFFFF with hc | hc
        · rw [encode_int_shape_u16 v hb hc]
          unfold spec_minimal_int_encoding
          rw [if_pos hpos, if_neg (by omega), if_neg (by omega), if_pos hc]
        · rcases le_or_lt v 0xFFFFFFFF with hd | hd
          · rw [encode_int_shape_u32 v hc hd]
            unfold spec_minimal_int_encoding
            rw [if_pos hpos, if_neg (by omega), if_neg (by omega), if_neg (by omega),
              if_pos hd]
          · rw [encode_int_shape_u64 v hd (by omega)]
            unfold spec_minimal_int_encoding
            rw [if_pos hpos, if_neg (by omega), if_neg (by omega), if_neg (by omega),
              if_neg (by omega)]

/-- Witness for C3 at `v = 1000`. -/
theorem C3_minimal_int_encoding_witness :
    (-(2 ^ 63 : Int) ≤ 1000 ∧ (1000 : Int) < 2 ^ 63) ∧
    encode_msgpack_int 1000 false = spec_minimal_int_encoding 1000 :=
  ⟨⟨by decide, by decide⟩, C3_minimal_int_encoding.1 1000 (by decide) (by decide)⟩

/-- C4 code bug: for the "always unsigned" 64-bit host value
`2 ^ 63` the encoder's width selection compares the reinterpreted
(negative) `int64_t` instead of the unsigned value
(src/msgpack.c:314-318), so it picks a 1-byte width and emits
`[0xCC, 0x00]` — which decodes to `0`, not `2 ^ 63`, instead of the
claimed narrowest representation `0xCF` + 8-byte big-endian payload. -/
theorem C4_u64_width_bug :
    msgpack_encode defaultEncCfg (.ju64 (2 ^ 63)) = .ok [0xCC, 0x00] ∧
    encode_msgpack_int (int64_of_uint64 (2 ^ 63)) true = [0xCC, 0x00] ∧
    msgpack_decode defaultDecCfg [0xCC, 0x00] = .ok (.jnum_int 0) :=
  ⟨rfl, rfl, rfl⟩

/-- C8 code bug: the decode entry point's `janet_arity(argc, 1, 1)`
rejects every call carrying the optional configuration argument the claim
(and the function's own docstring) describes; and even a decoder whose
`map_type` is set to the immutable variant still produces a mutable table
for a wire map, because the map case of `decode_msgpack` tests
`array_type` (src/msgpack.c:560). -/
theorem C8_decode_config_rejected :
    janet_msgpack_decode [0x80]
        (some (.jtable [(.jkeyword [109, 97, 112], .jsymbol [115, 116, 114, 117, 99, 116])]))
      = .error "arity mismatch, expected 1 argument" ∧
    msgpack_decode { defaultDecCfg with map_type := .immutable } [0x80] = .ok (.jtable []) ∧
    JVal.jtable [] ≠ JVal.jstruct [] :=
  ⟨rfl, rfl, fun h => JVal.noConfusion h⟩


/-- C5: wire `str` payloads of length ≤ 31 use the single inline tag
`0xA0 | len`, longer ones the minimal 8/16/32-bit length width with tags
`0xD9/0xDA/0xDB`; wire `bin` payloads always carry an explicit length
field under `0xC4/0xC5/0xC6`, never an inline form; and symbols and
keywords encode under the `str` rules regardless of the encoder
configuration. -/
theorem C5_str_bin_forms :
    (∀ s : List Nat, s.length ≤ 31 →
      encode_msgpack_string s .string = (0xA0 + s.length) :: s) ∧
    (∀ s : List Nat, 32 ≤ s.length → s.length ≤ 0xFF →
      encode_msgpack_string s .string = 0xD9 :: s.length :: s) ∧
    (∀ s : List Nat, 0xFF < s.length → s.length ≤ 0xFFFF →
      encode_msgpack_string s .string = 0xDA :: s.length / 2 ^ 8 :: s.length % 256 :: s) ∧
    (∀ s : List Nat, 0xFFFF < s.length → s.length ≤ 0xFFFFFFFF →
      encode_msgpack_string s .string
        = 0xDB :: s.length / 2 ^ 24 :: s.length / 2 ^ 16 % 256 :: s.length / 2 ^ 8 % 256 ::
            s.length % 256 :: s) ∧
    (∀ s : List Nat, s.length ≤ 0xFF →
      encode_msgpack_string s .bytes = 0xC4 :: s.length :: s) ∧
    (∀ s : List Nat, 0xFF < s.length → s.length ≤ 0xFFFF →
      encode_msgpack_string s .bytes = 0xC5 :: s.length / 2 ^ 8 :: s.length % 256 :: s) ∧
    (∀ s : List Nat, 0xFFFF < s.length → s.length ≤ 0xFFFFFFFF →
      encode_msgpack_string s .bytes
        = 0xC6 :: s.length / 2 ^ 24 :: s.length / 2 ^ 16 % 256 :: s.length / 2 ^ 8 % 256 ::
            s.length % 256 :: s) ∧
    (∀ (b : Nat) (cfg : EncCfg) (s : List Nat),
      encodeVal (b + 1) cfg (.jsymbol s) = .ok (encode_msgpack_string s .string) ∧
      encodeVal (b + 1) cfg (.jkeyword s) = .ok (encode_msgpack_string s .string)) := by
  refine ⟨?_, ?_, ?_, ?_, ?_, ?_, ?_, fun b cfg s => ⟨rfl, rfl⟩⟩
  · intro s h
    exact encode_str_shape_fix s (by omega)
  · intro s h1 h2
    rw [encode_str_shape_8 s h1 h2]
    simp only [encode_int_without_tag, List.cons_append, List.singleton_append, List.nil_append]
    rw [Nat.mod_eq_of_lt (by omega)]
  · intro s h1 h2
    rw [encode_str_shape_16 s h1 h2]
    simp only [encode_int_without_tag, List.cons_append, List.singleton_append, List.nil_append]
    rw [Nat.mod_eq_of_lt (by omega : s.length / 2 ^ 8 < 256)]
  · intro s h1 h2
    rw [encode_str_shape_32 s h1]
    simp only [encode_int_without_tag, List.cons_append, List.singleton_append, List.nil_append]
    rw [Nat.mod_eq_of_lt (by omega : s.length / 2 ^ 24 < 256)]
  · intro s h2
    rw [encode_bin_shape_8 s h2]
    simp only [encode_int_without_tag, List.cons_append, List.singleton_append, List.nil_append]
    rw [Nat.mod_eq_of_lt (by omega)]
  · intro s h1 h2
    rw [encode_bin_shape_16 s h1 h2]
    simp only [encode_int_without_tag, List.cons_append, List.singleton_append, List.nil_append]
    rw [Nat.mod_eq_of_lt (by omega : s.length / 2 ^ 8 < 256)]
  · intro s h1 h2
    rw [encode_bin_shape_32 s h1]
    simp only [encode_int_without_tag, List.cons_append, List.singleton_append, List.nil_append]
    rw [Nat.mod_eq_of_lt (by omega : s.length / 2 ^ 24 < 256)]

/-- Witness for C5 at the payload "hi", including the keyword conjunct
under a bytes-everywhere configuration. -/
theorem C5_str_bin_forms_witness :
    ([104, 105] : List Nat).length ≤ 31 ∧
    encode_msgpack_string [104, 105] .string = [0xA2, 104, 105] ∧
    encode_msgpack_string [104, 105] .bytes = [0xC4, 2, 104, 105] ∧
    encodeVal 1 ⟨.bytes, .bytes⟩ (.jkeyword [104, 105]) = .ok [0xA2, 104, 105] := by
  refine ⟨by decide, ?_, ?_, ?_⟩
  · exact C5_str_bin_forms.1 [104, 105] (by decide)
  · exact C5_str_bin_forms.2.2.2.2.1 [104, 105] (by decide)
  · exact (C5_str_bin_forms.2.2.2.2.2.2.2 0 ⟨.bytes, .bytes⟩ [104, 105]).2

/-- C6: encoding a mapping iterates its backing slots, skips exactly
the slots whose key is the nil sentinel (`encodeKVs` equals one
key+value chunk per *live* slot), and the emitted count field is the
number of live slots — the number of pairs actually written, not the
slot count of the backing storage. -/
theorem C6_map_count_skips_nil_slots :
    (∀ (child : JVal → Except String (List Nat)) (slots : List (JVal × JVal)),
      encodeKVs child slots = encodedPairChunks child (liveSlots slots)) ∧
    (∀ (b : Nat) (cfg : EncCfg) (slots : List (JVal × JVal)) (body : List Nat),
      encodeKVs (encodeVal b cfg) slots = .ok body →
      encodeVal (b + 1) cfg (.jtable slots) =
        .ok (encode_msgpack_collection_length (liveSlots slots).length 0x80 0xDE ++ body)) := by
  constructor
  · intro child slots
    induction slots with
    | nil => rfl
    | cons p rest ih =>
      obtain ⟨k, v⟩ := p
      cases k <;>
        simp [encodeKVs, encodedPairChunks, liveSlots, JVal.isNil, List.filter_cons, ih]
  · intro b cfg slots body h
    simp only [encodeVal, h]

/-- Witness for C6 at a two-slot backing store holding one nil-key slot
and one live slot: one pair is written and the count field is 1. -/
theorem C6_map_count_witness :
    encodeKVs (encodeVal 1024 defaultEncCfg)
        [(.jnil, .jnum_int 5), (.jkeyword [97], .jnum_int 1)]
      = .ok [0xA1, 97, 1] ∧
    encodeVal 1025 defaultEncCfg
        (.jtable [(.jnil, .jnum_int 5), (.jkeyword [97], .jnum_int 1)])
      = .ok [0x81, 0xA1, 97, 1] := by
  refine ⟨rfl, ?_⟩
  have h := C6_map_count_skips_nil_slots.2 1024 defaultEncCfg
    [(.jnil, .jnum_int 5), (.jkeyword [97], .jnum_int 1)] [0xA1, 97, 1] rfl
  exact h


/-- C9: wire `str` payloads decoded to string, keyword or symbol host
types go through the UTF-8-checked reader, so a payload that is not valid
UTF-8 makes the decode fail — even though the encoder writes payload
bytes verbatim after the tag. -/
theorem C9_str_utf8_validation :
    (∀ (cfg : DecCfg) (b : Nat) (s r : List Nat),
      s.length < 2 ^ 31 → cfg.string_type ≠ .buffer → utf8Valid s = false →
      decodeVal (b + 1) cfg (encode_msgpack_string s .string ++ r) = .error errInvalidUtf8) ∧
    (∀ (s : List Nat) (st : MsgpackStringType), ∃ hdr : List Nat,
      encode_msgpack_string s st = hdr ++ s) := by
  constructor
  · intro cfg b s r hlen hcfg hbad
    rw [decodeVal_str_enc cfg b s r hlen hcfg, if_neg (by simp [hbad])]
  · intro s st
    unfold encode_msgpack_string
    by_cases h : s.length < 32 ∧ st = .string
    · rw [if_pos h]
      exact ⟨[0xA0 + s.length], rfl⟩
    · rw [if_neg h]
      exact ⟨_, rfl⟩

/-- Witness for C9 at the one-byte payload `[0xFF]` (a lone continuation
byte, invalid UTF-8) under each of the three UTF-8-checked target
types. -/
theorem C9_str_utf8_validation_witness :
    utf8Valid [0xFF] = false ∧
    decodeVal 1 defaultDecCfg (encode_msgpack_string [0xFF] .string ++ [])
      = .error errInvalidUtf8 ∧
    decodeVal 1 { defaultDecCfg with string_type := .keyword }
        (encode_msgpack_string [0xFF] .string ++ []) = .error errInvalidUtf8 ∧
    decodeVal 1 { defaultDecCfg with string_type := .symbol }
        (encode_msgpack_string [0xFF] .string ++ []) = .error errInvalidUtf8 :=
  ⟨rfl,
    C9_str_utf8_validation.1 defaultDecCfg 0 [0xFF] [] (by decide) (by decide) rfl,
    C9_str_utf8_validation.1 { defaultDecCfg with string_type := .keyword } 0 [0xFF] []
      (by decide) (by decide) rfl,
    C9_str_utf8_validation.1 { defaultDecCfg with string_type := .symbol } 0 [0xFF] []
      (by decide) (by decide) rfl⟩

theorem takeWhile_nonzero_append (payload r : List Nat) (h : 0 ∈ payload) :
    ((payload ++ r).takeWhile fun x => x ≠ 0) = (payload.takeWhile fun x => x ≠ 0) ∧
    (payload.takeWhile fun x => x ≠ 0).length < payload.length := by
  induction payload with
  | nil => cases h
  | cons x xs ih =>
    by_cases hx : x = 0
    · subst hx
      refine ⟨?_, ?_⟩ <;> simp [List.takeWhile_cons]
    · have hmem : 0 ∈ xs := by
        rcases List.mem_cons.mp h with h0 | h0
        · omega
        · exact h0
      obtain ⟨ih1, ih2⟩ := ih hmem
      have hpx : (decide (x ≠ 0)) = true := by simp [hx]
      constructor
      · rw [List.cons_append, List.takeWhile_cons, List.takeWhile_cons, hpx]
        simp only [if_true]
        rw [ih1]
      · rw [List.takeWhile_cons, hpx]
        simp only [if_true, List.length_cons]
        omega

/-- C10: a wire `bin` payload decoded (under the default mutable
`bin` target) into a buffer goes through `janet_buffer_push_cstring` on
the in-place payload pointer, so the buffer holds the bytes before the
first zero byte of the payload-and-beyond region; a payload containing a
`0x00` byte therefore never decodes to a buffer with the payload's `L`
bytes. -/
theorem C10_bin_cstring_truncation :
    (∀ (b : Nat) (payload r : List Nat), payload.length < 2 ^ 31 →
      decodeVal (b + 1) defaultDecCfg (encode_msgpack_string payload .bytes ++ r)
        = .ok (.jbuffer (cstring_read (payload ++ r)), r)) ∧
    (∀ payload r : List Nat, 0 ∈ payload →
      cstring_read (payload ++ r) = cstring_read payload ∧
      (cstring_read payload).length < payload.length) := by
  constructor
  · intro b payload r hlen
    exact decodeVal_bin_enc defaultDecCfg b payload r hlen rfl
  · intro payload r h
    unfold cstring_read
    exact takeWhile_nonzero_append payload r h

/-- Witness for C10 at the payload `[0x00, 0x41]`: the decoded buffer is
empty, not the 2-byte payload. -/
theorem C10_bin_cstring_truncation_witness :
    ([0, 65] : List Nat).length < 2 ^ 31 ∧ 0 ∈ ([0, 65] : List Nat) ∧
    decodeVal 1 defaultDecCfg (encode_msgpack_string [0, 65] .bytes ++ [])
      = .ok (.jbuffer (cstring_read ([0, 65] ++ [])), []) ∧
    cstring_read ([0, 65] ++ []) = [] ∧
    cstring_read ([0, 65] ++ []) ≠ [0, 65] := by
  refine ⟨by decide, by decide, ?_, rfl, by decide⟩
  exact C10_bin_cstring_truncation.1 0 [0, 65] [] (by decide)


/-- C7: while decoding each map entry under the default configuration,
the str resolution is temporarily forced to keyword for the key and the
caller's resolution is restored before the value: a one-entry wire map
with a str key and a str value decodes to a table mapping the *keyword*
to the *string*; a top-level str still decodes to a string; the override
applies per map level, so a nested map value's own str key is again
keyworded; and the spec's concrete scenario
`decode (encode {"a": 1}) = {:a 1}` holds. -/
theorem C7_map_key_keyword_override :
    (∀ (b : Nat) (s t r : List Nat),
      utf8Valid s = true → s.length < 2 ^ 31 → utf8Valid t = true → t.length < 2 ^ 31 →
      decodeVal (b + 2) defaultDecCfg
          (0x81 :: (encode_msgpack_string s .string ++ (encode_msgpack_string t .string ++ r)))
        = .ok (.jtable [(.jkeyword s, .jstring t)], r)) ∧
    (∀ (b : Nat) (s r : List Nat), utf8Valid s = true → s.length < 2 ^ 31 →
      decodeVal (b + 1) defaultDecCfg (encode_msgpack_string s .string ++ r)
        = .ok (.jstring s, r)) ∧
    (∀ (b : Nat) (s t r : List Nat),
      utf8Valid s = true → s.length < 2 ^ 31 → utf8Valid t = true → t.length < 2 ^ 31 →
      decodeVal (b + 3) defaultDecCfg
          (0x81 :: (encode_msgpack_string s .string ++
            (0x81 :: (encode_msgpack_string t .string ++ (0xC3 :: r)))))
        = .ok (.jtable [(.jkeyword s, .jtable [(.jkeyword t, .jbool true)])], r)) ∧
    ((msgpack_encode defaultEncCfg (.jtable [(.jstring [97], .jnum_int 1)])).bind
        (msgpack_decode defaultDecCfg)
      = .ok (.jtable [(.jkeyword [97], .jnum_int 1)])) := by
  refine ⟨?_, ?_, ?_, rfl⟩
  · intro b s t r hus hls hut hlt
    have hb2 : b + 2 = (b + 1) + 1 := rfl
    rw [hb2]
    rw [decodeVal_rt_mmap defaultDecCfg (b + 1)
      (0x81 :: (encode_msgpack_string s .string ++ (encode_msgpack_string t .string ++ r)))
      (encode_msgpack_string s .string ++ (encode_msgpack_string t .string ++ r))
      1 rfl (by decide)]
    have hkey : decodeVal (b + 1) { defaultDecCfg with string_type := .keyword }
        (encode_msgpack_string s .string ++ (encode_msgpack_string t .string ++ r))
        = .ok (.jkeyword s, encode_msgpack_string t .string ++ r) := by
      rw [decodeVal_str_enc _ b s _ hls (by decide), if_pos hus]
      rfl
    have hval : decodeVal (b + 1) defaultDecCfg (encode_msgpack_string t .string ++ r)
        = .ok (.jstring t, r) := by
      rw [decodeVal_str_enc _ b t _ hlt (by decide), if_pos hut]
      rfl
    rw [decodeEntries_step _ _ 0 _ _ _ _ _ hkey hval]
    rfl
  · intro b s r hus hls
    rw [decodeVal_str_enc _ b s _ hls (by decide), if_pos hus]
    rfl
  · intro b s t r hus hls hut hlt
    have hb3 : b + 3 = (b + 2) + 1 := rfl
    rw [hb3]
    rw [decodeVal_rt_mmap defaultDecCfg (b + 2)
      (0x81 :: (encode_msgpack_string s .string ++
        (0x81 :: (encode_msgpack_string t .string ++ (0xC3 :: r)))))
      (encode_msgpack_string s .string ++
        (0x81 :: (encode_msgpack_string t .string ++ (0xC3 :: r))))
      1 rfl (by decide)]
    have hkey : decodeVal (b + 2) { defaultDecCfg with string_type := .keyword }
        (encode_msgpack_string s .string ++
          (0x81 :: (encode_msgpack_string t .string ++ (0xC3 :: r))))
        = .ok (.jkeyword s, 0x81 :: (encode_msgpack_string t .string ++ (0xC3 :: r))) := by
      have hb2 : b + 2 = (b + 1) + 1 := rfl
      rw [hb2, decodeVal_str_enc _ (b + 1) s _ hls (by decide), if_pos hus]
      rfl
    have hval : decodeVal (b + 2) defaultDecCfg
        (0x81 :: (encode_msgpack_string t .string ++ (0xC3 :: r)))
        = .ok (.jtable [(.jkeyword t, .jbool true)], r) := by
      have hb2 : b + 2 = (b + 1) + 1 := rfl
      rw [hb2]
      rw [decodeVal_rt_mmap defaultDecCfg (b + 1)
        (0x81 :: (encode_msgpack_string t .string ++ (0xC3 :: r)))
        (encode_msgpack_string t .string ++ (0xC3 :: r))
        1 rfl (by decide)]
      have hkey2 : decodeVal (b + 1) { defaultDecCfg with string_type := .keyword }
          (encode_msgpack_string t .string ++ (0xC3 :: r))
          = .ok (.jkeyword t, 0xC3 :: r) := by
        rw [decodeVal_str_enc _ b t _ hlt (by decide), if_pos hut]
        rfl
      have hval2 : decodeVal (b + 1) defaultDecCfg (0xC3 :: r) = .ok (.jbool true, r) :=
        decodeVal_rt_mbool defaultDecCfg b _ r true rfl
      rw [decodeEntries_step _ _ 0 _ _ _ _ _ hkey2 hval2]
      rfl
    rw [decodeEntries_step _ _ 0 _ _ _ _ _ hkey hval]
    rfl

/-- Witness for C7 at `s = "a"`, `t = "b"`. -/
theorem C7_map_key_keyword_override_witness :
    utf8Valid [97] = true ∧ ([97] : List Nat).length < 2 ^ 31 ∧
    utf8Valid [98] = true ∧ ([98] : List Nat).length < 2 ^ 31 ∧
    decodeVal 2 defaultDecCfg
        (0x81 :: (encode_msgpack_string [97] .string ++
          (encode_msgpack_string [98] .string ++ [])))
      = .ok (.jtable [(.jkeyword [97], .jstring [98])], []) :=
  ⟨rfl, by decide, rfl, by decide,
    C7_map_key_keyword_override.1 0 [97] [98] [] rfl (by decide) rfl (by decide)⟩


end JanetMsgpack
